import Mathlib

/-!
Verification of the MigraScope migration-risk analyzer.

This file shallowly embeds the two engines of the repository:

* `src/analyzer.ts` — the statement splitter, the ordered regex rule table
  `RULES`, the per-rule assessment functions and the aggregating `analyze`
  entry point.
* the multi-factor scorer (`scorer.ts`, imported by its test file) — the four
  factor scoring functions, the fixed `WEIGHTS` and `calculateRiskScore`.

Modelling conventions:

* JavaScript numbers are modelled as `ℚ` (the literal `0.01` is modelled as
  the exact rational `1 / 100`); `Math.round` is modelled as
  `jsRound q = ⌊q + 1/2⌋` (its behaviour on the non-negative values produced
  here).
* The regular expressions of the rule table are embedded as token lists
  (`RTok`) interpreted by `runToks`, a matcher that mirrors the JavaScript
  semantics of the particular patterns in the table: case-insensitive
  literals, greedy `\s+` and `\w+`, optional groups with
  prefer-the-group-then-backtrack alternation, the optional quote `"?`, the
  single capturing group `(\w+)`, and the negative lookahead
  `(?!CONCURRENTLY)`.  Greedy matching of `\s+` / `\w+` without backtracking
  into the quantifier is faithful for these patterns because every token
  following such a quantifier starts with a character class disjoint from the
  quantifier's class; an optional group (a deterministic literal/whitespace
  sequence) is matched group-first with fallback to skipping it, which is the
  JavaScript backtracking order.
* `new Map(pairs).get(key)` keeps the last binding of a duplicated key;
  `lookupMeta` mirrors that.
* Strings are handled as `List Char`; case folding is ASCII (`asciiLower`),
  which is faithful for the ASCII keywords and statements involved.

The second half of the definitions introduces symbolic matching certificates:
to settle claims quantified over an arbitrary table name, inputs of the shape
`x ++ t` are analysed, where `x` is a concrete script prefix and `t` is an
arbitrary non-empty word-character string (the table name) at the end of the
statement.  `noMatchAt` / `failsOnAllWord` / `capTailRun` are computable
checkers whose positive answers certify, for every such `t`, that a pattern
fails everywhere, respectively matches capturing exactly `t`; their soundness
is proved in the theorem section and the certificates themselves are
discharged by `decide`.
-/

/-- `\w` of the patterns: `[A-Za-z0-9_]`. -/
def isWordChar (c : Char) : Bool :=
  ('a' ≤ c && c ≤ 'z') || ('A' ≤ c && c ≤ 'Z') || ('0' ≤ c && c ≤ '9') || c == '_'

/-- `\s` of the patterns (the ASCII whitespace characters JavaScript treats as `\s`). -/
def isWsChar (c : Char) : Bool :=
  c == ' ' || c == '\t' || c == '\n' || c == '\r' || c == '\x0b' || c == '\x0c'

/-- ASCII lower casing, modelling the case-insensitive `/i` flag and `toLowerCase`. -/
def asciiLower (c : Char) : Char :=
  if 'A' ≤ c && c ≤ 'Z' then Char.ofNat (c.toNat + 32) else c

/-- ASCII upper casing, modelling `toUpperCase`. -/
def asciiUpper (c : Char) : Char :=
  if 'a' ≤ c && c ≤ 'z' then Char.ofNat (c.toNat - 32) else c

/-- Match a case-insensitive literal at the head of the input, returning the rest. -/
def matchLit : List Char → List Char → Option (List Char)
  | [], s => some s
  | _ :: _, [] => none
  | c :: cs, d :: s => if asciiLower d = asciiLower c then matchLit cs s else none

/-- Drop the maximal whitespace run at the head of the input. -/
def dropWsChars : List Char → List Char
  | [] => []
  | c :: cs => if isWsChar c then dropWsChars cs else c :: cs

/-- Match `\s+` (at least one whitespace character, greedily). -/
def matchWs1 : List Char → Option (List Char)
  | [] => none
  | c :: cs => if isWsChar c then some (dropWsChars cs) else none

/-- Split the maximal word-character run from the head of the input. -/
def takeWordChars : List Char → List Char × List Char
  | [] => ([], [])
  | c :: cs =>
    if isWordChar c then ((c :: (takeWordChars cs).1), (takeWordChars cs).2)
    else ([], c :: cs)

/-- Match `\w+` (at least one word character, greedily), returning word and rest. -/
def matchWord1 : List Char → Option (List Char × List Char)
  | [] => none
  | c :: cs =>
    if isWordChar c then some (c :: (takeWordChars cs).1, (takeWordChars cs).2)
    else none

/-- Consume an optional double quote, modelling `"?`. -/
def dropOptQuote : List Char → List Char
  | [] => []
  | c :: cs => if c = '\"' then cs else c :: cs

/-- Simple tokens allowed inside an optional group `(?: ... )?`. -/
inductive STok
  | lit (cs : List Char)
  | ws1
deriving DecidableEq

/-- Tokens of the embedded regular expressions. -/
inductive RTok
  | lit (cs : List Char)
  | ws1
  | word1
  | cap
  | optQuote
  | opt (g : List STok)
  | negLook (cs : List Char)
deriving DecidableEq

/-- Match the (deterministic) body of an optional group, returning the rest. -/
def runSToks : List STok → List Char → Option (List Char)
  | [], s => some s
  | .lit cs :: g, s => (matchLit cs s).bind (runSToks g)
  | .ws1 :: g, s => (matchWs1 s).bind (runSToks g)

/-- Run a token list at the current position.  Returns the capture of the
group `(\w+)` (if reached) and the rest of the input.  An optional group is
tried group-first with fallback to skipping it — the JavaScript backtracking
order for `(?: ... )?` (the group body itself is deterministic). -/
def runToks : List RTok → List Char → Option (Option (List Char) × List Char)
  | [], s => some (none, s)
  | .lit cs :: ts, s => (matchLit cs s).bind (runToks ts)
  | .ws1 :: ts, s => (matchWs1 s).bind (runToks ts)
  | .word1 :: ts, s => (matchWord1 s).bind (fun wr => runToks ts wr.2)
  | .cap :: ts, s =>
    (matchWord1 s).bind (fun wr => (runToks ts wr.2).map (fun pr => (some wr.1, pr.2)))
  | .optQuote :: ts, s => runToks ts (dropOptQuote s)
  | .opt g :: ts, s =>
    match runSToks g s with
    | some s2 => (runToks ts s2).orElse (fun _ => runToks ts s)
    | none => runToks ts s
  | .negLook cs :: ts, s => if (matchLit cs s).isSome then none else runToks ts s

/-- Search for the leftmost position where `p` matches (the semantics of
`RegExp.exec` without anchors). -/
def searchPat {α : Type} (p : List Char → Option α) : List Char → Option α
  | [] => p []
  | c :: cs =>
    match p (c :: cs) with
    | some w => some w
    | none => searchPat p cs

/-- Unanchored, leftmost search of an embedded pattern. -/
def reSearch (p : List RTok) (s : List Char) : Option (Option (List Char) × List Char) :=
  searchPat (runToks p) s

/-! ### Data model of `analyzer.ts` -/

/-- `TableMeta` of `analyzer.ts`. -/
structure TableMeta where
  name : String
  rowCount : ℚ
  sizeBytes : ℚ
deriving DecidableEq

/-- `RiskLevel` of `analyzer.ts`: `"low" | "medium" | "high" | "critical"`. -/
inductive RiskLevel
  | low
  | medium
  | high
  | critical
deriving DecidableEq

/-- The fields of a `RiskItem` except `table` (the `Omit<RiskItem, "table">`
returned by the per-rule `assess` functions). -/
structure Assessment where
  operation : String
  riskLevel : RiskLevel
  lockType : String
  estimatedDurationMs : ℚ
  dataLoss : Bool
  suggestion : String
deriving DecidableEq

/-- `RiskItem` of `analyzer.ts`. -/
structure RiskItem extends Assessment where
  table : String
deriving DecidableEq

/-- `AnalysisReport` of `analyzer.ts` (the two rounded fields are integers). -/
structure AnalysisReport where
  operations : List RiskItem
  overallRisk : RiskLevel
  totalEstimatedDurationMs : ℤ
  score : ℤ
deriving DecidableEq

/-- `const R = 0.01` — ms per row baseline. -/
def R : ℚ := 1 / 100

/-- `SCORES`: the numeric weight of each risk level. -/
def SCORES : RiskLevel → ℚ
  | .low => 10
  | .medium => 40
  | .high => 70
  | .critical => 100

/-- `DEFAULT_META`. -/
def DEFAULT_META : TableMeta := { name := "unknown", rowCount := 100000, sizeBytes := 10000000 }

/-- `Math.round`, on the values produced by the engine. -/
def jsRound (q : ℚ) : ℤ := Rat.floor (q + 1 / 2)

/-! ### The embedded patterns of `RULES`

Keyword literals are stored lower-cased; `matchLit` compares through
`asciiLower`, which models the `/i` flag. -/

def litDrop : List Char := "drop".toList
def litTable : List Char := "table".toList
def litIf : List Char := "if".toList
def litExists : List Char := "exists".toList
def litAlter : List Char := "alter".toList
def litColumn : List Char := "column".toList
def litSet : List Char := "set".toList
def litData : List Char := "data".toList
def litType : List Char := "type".toList
def litAdd : List Char := "add".toList
def litConstraint : List Char := "constraint".toList
def litRename : List Char := "rename".toList
def litCreate : List Char := "create".toList
def litIndex : List Char := "index".toList
def litConcurrently : List Char := "concurrently".toList
def litUnique : List Char := "unique".toList
def litOn : List Char := "on".toList
def litNot : List Char := "not".toList
def litNull : List Char := "null".toList
def litDefault : List Char := "default".toList

/-- The shared head `ALTER\s+TABLE\s+"?(\w+)"?\s+` of the five `ALTER TABLE` patterns. -/
def alterPre : List RTok :=
  [.lit litAlter, .ws1, .lit litTable, .ws1, .optQuote, .cap, .optQuote, .ws1]

/-- `/DROP\s+TABLE\s+(?:IF\s+EXISTS\s+)?"?(\w+)/i` -/
def P_DROP_TABLE : List RTok :=
  [.lit litDrop, .ws1, .lit litTable, .ws1,
   .opt [.lit litIf, .ws1, .lit litExists, .ws1], .optQuote, .cap]

/-- `/ALTER\s+TABLE\s+"?(\w+)"?\s+DROP\s+COLUMN/i` -/
def P_DROP_COLUMN : List RTok := alterPre ++ [.lit litDrop, .ws1, .lit litColumn]

/-- `/ALTER\s+TABLE\s+"?(\w+)"?\s+ALTER\s+COLUMN\s+\w+\s+(?:SET\s+DATA\s+)?TYPE/i` -/
def P_ALTER_COLUMN_TYPE : List RTok :=
  alterPre ++ [.lit litAlter, .ws1, .lit litColumn, .ws1, .word1, .ws1,
               .opt [.lit litSet, .ws1, .lit litData, .ws1], .lit litType]

/-- `/ALTER\s+TABLE\s+"?(\w+)"?\s+ADD\s+COLUMN/i` -/
def P_ADD_COLUMN : List RTok := alterPre ++ [.lit litAdd, .ws1, .lit litColumn]

/-- `/CREATE\s+INDEX\s+CONCURRENTLY\s+\w+\s+ON\s+"?(\w+)/i` -/
def P_CREATE_INDEX_CONC : List RTok :=
  [.lit litCreate, .ws1, .lit litIndex, .ws1, .lit litConcurrently, .ws1,
   .word1, .ws1, .lit litOn, .ws1, .optQuote, .cap]

/-- `/CREATE\s+(?:UNIQUE\s+)?INDEX\s+(?!CONCURRENTLY)\w+\s+ON\s+"?(\w+)/i` -/
def P_CREATE_INDEX : List RTok :=
  [.lit litCreate, .ws1, .opt [.lit litUnique, .ws1], .lit litIndex, .ws1,
   .negLook litConcurrently, .word1, .ws1, .lit litOn, .ws1, .optQuote, .cap]

/-- `/ALTER\s+TABLE\s+"?(\w+)"?\s+ADD\s+CONSTRAINT/i` -/
def P_ADD_CONSTRAINT : List RTok := alterPre ++ [.lit litAdd, .ws1, .lit litConstraint]

/-- `/ALTER\s+TABLE\s+"?(\w+)"?\s+RENAME/i` -/
def P_RENAME : List RTok := alterPre ++ [.lit litRename]

/-- `/NOT\s+NULL/i` (the test inside the ADD COLUMN rule). -/
def P_NOT_NULL : List RTok := [.lit litNot, .ws1, .lit litNull]

/-- `/DEFAULT/i` (the test inside the ADD COLUMN rule). -/
def P_DEFAULT : List RTok := [.lit litDefault]

/-- `/NOT\s+NULL/i.test(sql)` -/
def testNotNull (sql : List Char) : Bool := (reSearch P_NOT_NULL sql).isSome

/-- `/DEFAULT/i.test(sql)` -/
def testDefault (sql : List Char) : Bool := (reSearch P_DEFAULT sql).isSome

/-! ### The rule table -/

/-- One entry of `RULES`: a pattern and its assessment function. -/
structure Rule where
  pattern : List RTok
  assess : TableMeta → List Char → Assessment

def assessDropTable (_m : TableMeta) (_sql : List Char) : Assessment :=
  { operation := "DROP TABLE", riskLevel := .critical, lockType := "ACCESS EXCLUSIVE",
    estimatedDurationMs := 50, dataLoss := true,
    suggestion := "Ensure full backup. Consider renaming to _deprecated instead." }

def assessDropColumn (m : TableMeta) (_sql : List Char) : Assessment :=
  { operation := "DROP COLUMN", riskLevel := .high, lockType := "ACCESS EXCLUSIVE",
    estimatedDurationMs := m.rowCount * R, dataLoss := true,
    suggestion := "Column data will be permanently lost. Add deprecation period first." }

def assessAlterColumnType (m : TableMeta) (_sql : List Char) : Assessment :=
  { operation := "ALTER COLUMN TYPE", riskLevel := .high, lockType := "ACCESS EXCLUSIVE",
    estimatedDurationMs := m.rowCount * R * 2, dataLoss := false,
    suggestion := "Full table rewrite required. Schedule during maintenance window." }

def assessAddColumn (m : TableMeta) (sql : List Char) : Assessment :=
  if testNotNull sql && !testDefault sql then
    { operation := "ADD COLUMN (NOT NULL, no default)", riskLevel := .high,
      lockType := "ACCESS EXCLUSIVE", estimatedDurationMs := m.rowCount * R * 2,
      dataLoss := false,
      suggestion := "Add DEFAULT value or use nullable + backfill + set NOT NULL strategy." }
  else
    { operation := "ADD COLUMN", riskLevel := .low, lockType := "ACCESS EXCLUSIVE (brief)",
      estimatedDurationMs := 10, dataLoss := false,
      suggestion := "Safe in PostgreSQL 11+. Fast metadata-only operation." }

def assessCreateIndexConc (m : TableMeta) (_sql : List Char) : Assessment :=
  { operation := "CREATE INDEX CONCURRENTLY", riskLevel := .low,
    lockType := "SHARE UPDATE EXCLUSIVE", estimatedDurationMs := m.rowCount * R * 3,
    dataLoss := false,
    suggestion := "Good practice. Monitor for long-running transactions that may block." }

def assessCreateIndex (m : TableMeta) (_sql : List Char) : Assessment :=
  { operation := "CREATE INDEX", riskLevel := .high, lockType := "SHARE",
    estimatedDurationMs := m.rowCount * R * 3, dataLoss := false,
    suggestion := "Use CREATE INDEX CONCURRENTLY to avoid blocking writes." }

def assessAddConstraint (m : TableMeta) (_sql : List Char) : Assessment :=
  { operation := "ADD CONSTRAINT", riskLevel := .medium, lockType := "ACCESS EXCLUSIVE",
    estimatedDurationMs := m.rowCount * R, dataLoss := false,
    suggestion := "For FK constraints, use NOT VALID then VALIDATE CONSTRAINT separately." }

def assessRename (_m : TableMeta) (_sql : List Char) : Assessment :=
  { operation := "RENAME", riskLevel := .medium, lockType := "ACCESS EXCLUSIVE (brief)",
    estimatedDurationMs := 10, dataLoss := false,
    suggestion := "Update all application queries referencing the old name." }

/-- `RULES`, in source order (the order is load-bearing: first match wins). -/
def RULES : List Rule :=
  [ { pattern := P_DROP_TABLE, assess := assessDropTable },
    { pattern := P_DROP_COLUMN, assess := assessDropColumn },
    { pattern := P_ALTER_COLUMN_TYPE, assess := assessAlterColumnType },
    { pattern := P_ADD_COLUMN, assess := assessAddColumn },
    { pattern := P_CREATE_INDEX_CONC, assess := assessCreateIndexConc },
    { pattern := P_CREATE_INDEX, assess := assessCreateIndex },
    { pattern := P_ADD_CONSTRAINT, assess := assessAddConstraint },
    { pattern := P_RENAME, assess := assessRename } ]

/-! ### `analyze` -/

/-- `s.toLowerCase()` (ASCII). -/
def lowerStr (s : String) : String := String.mk (s.toList.map asciiLower)

/-- `new Map(tableMeta.map(t => [t.name.toLowerCase(), t])).get(key)`:
the last entry with the given (lower-cased) name wins. -/
def lookupMeta : List TableMeta → String → Option TableMeta
  | [], _ => none
  | t :: ts, key =>
    match lookupMeta ts key with
    | some r => some r
    | none => if lowerStr t.name == key then some t else none

/-- `metaMap.get(table.toLowerCase()) || { ...DEFAULT_META, name: table }`. -/
def resolveMeta (tableMeta : List TableMeta) (table : String) : TableMeta :=
  (lookupMeta tableMeta (lowerStr table)).getD { DEFAULT_META with name := table }

/-- First rule whose pattern matches the statement, with the capture of its
group 1 (`for (const rule of RULES) ... break`). -/
def matchRules : List Rule → List Char → Option (Rule × Option (List Char))
  | [], _ => none
  | r :: rs, stmt =>
    match reSearch r.pattern stmt with
    | some m => some (r, m.1)
    | none => matchRules rs stmt

/-- The body of the per-statement loop: match, resolve the table metadata,
assess, and attach the captured table name (`match[1] || "unknown"`). -/
def assessStmt (tableMeta : List TableMeta) (stmt : List Char) : Option RiskItem :=
  (matchRules RULES stmt).map (fun rm =>
    let cap := rm.2.getD []
    let table := if cap.isEmpty then "unknown" else String.mk cap
    let meta := resolveMeta tableMeta table
    { toAssessment := rm.1.assess meta stmt, table := table })

/-- `sql.split(";")`. -/
def splitSemisAux (acc : List Char) : List Char → List (List Char)
  | [] => [acc.reverse]
  | c :: cs =>
    if c = ';' then acc.reverse :: splitSemisAux [] cs else splitSemisAux (c :: acc) cs

/-- `.trim()` (over the modelled whitespace set). -/
def trimChars (s : List Char) : List Char :=
  (dropWsChars ((dropWsChars s).reverse)).reverse

/-- `sql.split(";").map(s => s.trim()).filter(Boolean)`. -/
def statementsOf (sql : String) : List (List Char) :=
  ((splitSemisAux [] sql.toList).map trimChars).filter (fun s => !s.isEmpty)

/-- The `operations` array accumulated by `analyze`. -/
def operationsOf (sql : String) (tableMeta : List TableMeta) : List RiskItem :=
  (statementsOf sql).filterMap (assessStmt tableMeta)

/-- `operations.reduce((max, op) => SCORES[op.riskLevel] > SCORES[max] ? op.riskLevel : max, "low")`. -/
def overallRiskOf (ops : List RiskItem) : RiskLevel :=
  ops.foldl (fun mx op => if SCORES mx < SCORES op.riskLevel then op.riskLevel else mx) .low

/-- `Math.round(operations.reduce((s, o) => s + o.estimatedDurationMs, 0))`. -/
def totalDurationOf (ops : List RiskItem) : ℤ :=
  jsRound (ops.foldl (fun s o => s + o.estimatedDurationMs) 0)

/-- `operations.length === 0 ? 0 : Math.round(sum(SCORES) / operations.length)`. -/
def scoreOf (ops : List RiskItem) : ℤ :=
  if ops.length = 0 then 0
  else jsRound ((ops.foldl (fun s o => s + SCORES o.riskLevel) 0) / (ops.length : ℚ))

/-- `analyze` of `analyzer.ts`. -/
def analyze (sql : String) (tableMeta : List TableMeta) : AnalysisReport :=
  { operations := operationsOf sql tableMeta,
    overallRisk := overallRiskOf (operationsOf sql tableMeta),
    totalEstimatedDurationMs := totalDurationOf (operationsOf sql tableMeta),
    score := scoreOf (operationsOf sql tableMeta) }

/-! ### Data model of the multi-factor scorer (`scorer.ts`) -/

/-- `TableMetadata` of `scorer.ts`. -/
structure TableMetadata where
  name : String
  rowCount : ℚ
  sizeBytes : ℚ
  foreignKeyCount : Option ℚ
  referencedByCount : Option ℚ
deriving DecidableEq

/-- The optional `details` object of a `ParsedMigration`. -/
structure MigrationDetails where
  isNullable : Option Bool
  hasDefault : Option Bool
  columnTypeChange : Option Bool
  isConcurrent : Option Bool
deriving DecidableEq

/-- `ParsedMigration` of `scorer.ts`. -/
structure ParsedMigration where
  sql : String
  operation : String
  table : String
  details : Option MigrationDetails
deriving DecidableEq

/-- `RiskFactor` of `scorer.ts`. -/
structure RiskFactor where
  name : String
  score : ℚ
  explanation : String
deriving DecidableEq

/-- `RiskReport` of `scorer.ts` (`riskLevel` reuses the four-valued scale). -/
structure RiskReport where
  overallScore : ℤ
  riskLevel : RiskLevel
  factors : List RiskFactor
deriving DecidableEq

/-- The fixed factor weights. -/
structure Weights where
  tableSize : ℚ
  lockRisk : ℚ
  cascadeRisk : ℚ
  dataLoss : ℚ

/-- `WEIGHTS` of `scorer.ts`. -/
def WEIGHTS : Weights :=
  { tableSize := 25 / 100, lockRisk := 30 / 100, cascadeRisk := 20 / 100, dataLoss := 25 / 100 }

/-- Insert a grouping comma after every third digit (digits given reversed). -/
def groupRev : List Char → ℕ → List Char
  | [], _ => []
  | [c], _ => [c]
  | c :: cs, 0 => c :: ',' :: groupRev cs 2
  | c :: cs, k + 1 => c :: groupRev cs k

/-- `Number.prototype.toLocaleString`, modelled for the non-negative integers
(the only values the scorer interpolates): en-US digit grouping. -/
def jsToLocaleString (q : ℚ) : String :=
  String.mk ((groupRev ((toString q.num.natAbs).toList).reverse 2).reverse)

/-- `${fkCount}` — JavaScript number-to-string, modelled for integers. -/
def jsNumToString (q : ℚ) : String := toString q.num

/-- `scoreTableSize` of `scorer.ts`. -/
def scoreTableSize (rowCount : ℚ) : RiskFactor :=
  if rowCount ≤ 0 then
    { name := "Table Size Impact", score := 0, explanation := "Empty table — no size impact." }
  else if rowCount < 10000 then
    { name := "Table Size Impact", score := 5,
      explanation := "Small table (" ++ jsToLocaleString rowCount ++ " rows) — minimal size impact." }
  else if rowCount < 100000 then
    { name := "Table Size Impact", score := 15,
      explanation := "Moderate table (" ++ jsToLocaleString rowCount ++ " rows) — low size impact." }
  else if rowCount < 1000000 then
    { name := "Table Size Impact", score := 35,
      explanation := "Large table (" ++ jsToLocaleString rowCount ++ " rows) — notable size impact." }
  else if rowCount < 10000000 then
    { name := "Table Size Impact", score := 65,
      explanation := "Very large table (" ++ jsToLocaleString rowCount ++ " rows) — significant size impact." }
  else if rowCount < 100000000 then
    { name := "Table Size Impact", score := 85,
      explanation := "Massive table (" ++ jsToLocaleString rowCount ++ " rows) — high size impact." }
  else
    { name := "Table Size Impact", score := 100,
      explanation := "Enormous table (" ++ jsToLocaleString rowCount ++ " rows) — extreme size impact." }

/-- The empty `details` object (`migration.details || {}`). -/
def defaultDetails : MigrationDetails :=
  { isNullable := none, hasDefault := none, columnTypeChange := none, isConcurrent := none }

/-- JavaScript truthiness of an optional boolean field. -/
def truthy (o : Option Bool) : Bool := o.getD false

/-- `s.toUpperCase()` (ASCII). -/
def upperStr (s : String) : String := String.mk (s.toList.map asciiUpper)

/-- `scoreLockRisk` of `scorer.ts`. -/
def scoreLockRisk (migration : ParsedMigration) : RiskFactor :=
  let op := upperStr migration.operation
  let details := migration.details.getD defaultDetails
  if op == "ALTER COLUMN TYPE" || truthy details.columnTypeChange then
    { name := "Lock Risk", score := 90,
      explanation := "Column type change requires full table rewrite with ACCESS EXCLUSIVE lock." }
  else if op == "CREATE INDEX" || op == "ADD INDEX" then
    if truthy details.isConcurrent then
      { name := "Lock Risk", score := 15,
        explanation := "Concurrent index creation uses SHARE UPDATE EXCLUSIVE lock — minimal blocking." }
    else
      { name := "Lock Risk", score := 80,
        explanation := "Non-concurrent index creation holds SHARE lock, blocking all writes." }
  else if op == "TRUNCATE" then
    { name := "Lock Risk", score := 75, explanation := "TRUNCATE requires ACCESS EXCLUSIVE lock." }
  else if op == "DROP TABLE" then
    { name := "Lock Risk", score := 70,
      explanation := "DROP TABLE requires ACCESS EXCLUSIVE lock, blocking all concurrent operations." }
  else if op == "DROP COLUMN" then
    { name := "Lock Risk", score := 70,
      explanation := "DROP COLUMN requires ACCESS EXCLUSIVE lock on the table." }
  else if op == "ADD COLUMN" then
    if !truthy details.isNullable && !truthy details.hasDefault then
      { name := "Lock Risk", score := 60,
        explanation := "ADD COLUMN NOT NULL without DEFAULT requires table rewrite and ACCESS EXCLUSIVE lock." }
    else
      { name := "Lock Risk", score := 10,
        explanation := "ADD COLUMN (nullable or with default) is a metadata-only change — minimal lock." }
  else
    { name := "Lock Risk", score := 20,
      explanation := "Operation \"" ++ op ++ "\" may require table-level lock." }

/-- `(metadata.foreignKeyCount || 0) + (metadata.referencedByCount || 0)`. -/
def fkCombined (metadata : TableMetadata) : ℚ :=
  metadata.foreignKeyCount.getD 0 + metadata.referencedByCount.getD 0

/-- The cascade step function of `scoreCascadeRisk`, as a function of the
combined foreign-key count. -/
def cascadeFactorOf (fkCount : ℚ) : RiskFactor :=
  if fkCount = 0 then
    { name := "Cascade Risk", score := 0,
      explanation := "No foreign key relationships — no cascade risk." }
  else if fkCount ≤ 2 then
    { name := "Cascade Risk", score := 20,
      explanation := jsNumToString fkCount ++ " foreign key relationship(s) — low cascade risk." }
  else if fkCount ≤ 4 then
    { name := "Cascade Risk", score := 50,
      explanation := jsNumToString fkCount ++ " foreign key relationships — moderate cascade risk." }
  else if fkCount ≤ 9 then
    { name := "Cascade Risk", score := 80,
      explanation := jsNumToString fkCount ++ " foreign key relationships — high cascade risk. Changes may trigger cascading locks or constraint checks." }
  else
    { name := "Cascade Risk", score := 100,
      explanation := jsNumToString fkCount ++ " foreign key relationships — extreme cascade risk." }

/-- `scoreCascadeRisk` of `scorer.ts`. -/
def scoreCascadeRisk (metadata : TableMetadata) : RiskFactor :=
  cascadeFactorOf (fkCombined metadata)

/-- `scoreDataLoss` of `scorer.ts`. -/
def scoreDataLoss (migration : ParsedMigration) : RiskFactor :=
  let op := upperStr migration.operation
  if op == "DROP TABLE" then
    { name := "Data Loss Risk", score := 100,
      explanation := "DROP TABLE permanently destroys the entire table and all its data." }
  else if op == "TRUNCATE" then
    { name := "Data Loss Risk", score := 90,
      explanation := "TRUNCATE removes all rows from the table." }
  else if op == "DROP COLUMN" then
    { name := "Data Loss Risk", score := 80,
      explanation := "DROP COLUMN permanently removes column data from all rows." }
  else
    { name := "Data Loss Risk", score := 0,
      explanation := "No data loss risk detected for this operation." }

/-- `determineRiskLevel` of `scorer.ts`. -/
def determineRiskLevel (score : ℤ) : RiskLevel :=
  if score ≤ 25 then .low
  else if score ≤ 50 then .medium
  else if score ≤ 75 then .high
  else .critical

/-- `calculateRiskScore` of `scorer.ts`. -/
def calculateRiskScore (migration : ParsedMigration) (metadata : TableMetadata) : RiskReport :=
  let tableSizeFactor := scoreTableSize metadata.rowCount
  let lockRiskFactor := scoreLockRisk migration
  let cascadeRiskFactor := scoreCascadeRisk metadata
  let dataLossFactor := scoreDataLoss migration
  let overallScore := jsRound (WEIGHTS.tableSize * tableSizeFactor.score
      + WEIGHTS.lockRisk * lockRiskFactor.score
      + WEIGHTS.cascadeRisk * cascadeRiskFactor.score
      + WEIGHTS.dataLoss * dataLossFactor.score)
  { overallScore := overallScore,
    riskLevel := determineRiskLevel overallScore,
    factors := [tableSizeFactor, lockRiskFactor, cascadeRiskFactor, dataLossFactor] }


/-! ### Symbolic matching certificates (checker definitions) -/

/-- Every character of the string is a word character. -/
def allWord (t : List Char) : Prop := ∀ c ∈ t, isWordChar c = true

/-- Result of symbolically matching against `r ++ t` for an unknown all-word
tail `t`: definite failure, definite success within the concrete part, or
entry into the unknown tail. -/
inductive LitRes
  | fail
  | ok (rest : List Char)
  | tail
deriving DecidableEq

/-- Symbolic `matchLit` on `r ++ t` for unknown all-word `t`. -/
def symLit : List Char → List Char → LitRes
  | [], r => .ok r
  | _ :: _, [] => .tail
  | c :: cs, d :: r => if asciiLower d = asciiLower c then symLit cs r else .fail

/-- Symbolic `runSToks` on `r ++ t` for unknown all-word `t`. -/
def symSToks : List STok → List Char → LitRes
  | [], r => .ok r
  | .lit cs :: g, r =>
    match symLit cs r with
    | .fail => .fail
    | .ok r2 => symSToks g r2
    | .tail => .tail
  | .ws1 :: g, r =>
    match r with
    | [] => .fail
    | d :: r2 => if isWsChar d then symSToks g (dropWsChars r2) else .fail

/-- Certifies that a token list fails on every all-word input. -/
def failsOnAllWord : List RTok → Bool
  | [] => false
  | .lit _ :: ts => failsOnAllWord ts
  | .ws1 :: _ => true
  | .word1 :: ts => failsOnAllWord ts
  | .cap :: ts => failsOnAllWord ts
  | .optQuote :: ts => failsOnAllWord ts
  | .opt _ :: ts => failsOnAllWord ts
  | .negLook _ :: ts => failsOnAllWord ts

/-- Certifies that a token list fails on `r ++ t` for every all-word `t`. -/
def noMatchAt : List RTok → List Char → Bool
  | [], _ => false
  | .lit cs :: ts, r =>
    match symLit cs r with
    | .fail => true
    | .ok r2 => noMatchAt ts r2
    | .tail => failsOnAllWord ts
  | .ws1 :: ts, r =>
    match r with
    | [] => true
    | d :: r2 => if isWsChar d then noMatchAt ts (dropWsChars r2) else true
  | .word1 :: ts, r =>
    match r with
    | [] => failsOnAllWord ts
    | d :: r2 =>
      if isWordChar d then
        if (takeWordChars r2).2.isEmpty then failsOnAllWord ts
        else noMatchAt ts (takeWordChars r2).2
      else true
  | .cap :: ts, r =>
    match r with
    | [] => failsOnAllWord ts
    | d :: r2 =>
      if isWordChar d then
        if (takeWordChars r2).2.isEmpty then failsOnAllWord ts
        else noMatchAt ts (takeWordChars r2).2
      else true
  | .optQuote :: ts, r => noMatchAt ts (dropOptQuote r)
  | .opt g :: ts, r =>
    match symSToks g r with
    | .fail => noMatchAt ts r
    | .ok r2 => noMatchAt ts r2 && noMatchAt ts r
    | .tail => failsOnAllWord ts && noMatchAt ts r
  | .negLook cs :: ts, r =>
    match symLit cs r with
    | .ok _ => true
    | _ => noMatchAt ts r

/-- Certifies that the pattern fails at every position of `x ++ t` for every
all-word `t`. -/
def certNoMatch (pt : List RTok) (x : List Char) : Bool :=
  (x.tails.all (fun r => noMatchAt pt r)) && failsOnAllWord pt

/-- Certifies that the pattern, started at the head of `x ++ t`, matches and
captures exactly `t` (for every non-empty all-word `t`), consuming the input
to its end. -/
def capTailRun : List RTok → List Char → Bool
  | [.cap], r => r.isEmpty
  | .lit cs :: ts, r =>
    match symLit cs r with
    | .ok r2 => capTailRun ts r2
    | _ => false
  | .ws1 :: ts, r =>
    match r with
    | d :: r2 => isWsChar d && capTailRun ts (dropWsChars r2)
    | [] => false
  | .word1 :: ts, r =>
    match r with
    | d :: r2 =>
      isWordChar d && (!(takeWordChars r2).2.isEmpty && capTailRun ts (takeWordChars r2).2)
    | [] => false
  | .optQuote :: ts, r => capTailRun ts (dropOptQuote r)
  | .opt g :: ts, r =>
    match symSToks g r with
    | .ok r2 => capTailRun ts r2 || (noMatchAt ts r2 && capTailRun ts r)
    | .fail => capTailRun ts r
    | .tail => false
  | .negLook cs :: ts, r =>
    match symLit cs r with
    | .fail => capTailRun ts r
    | _ => false
  | _, _ => false

/-! ### Definitions used only to state the claims -/

/-- The ordinal rank of a risk level (`low < medium < high < critical`). -/
def rank : RiskLevel → ℕ
  | .low => 0
  | .medium => 1
  | .high => 2
  | .critical => 3

/-- Concrete script prefix: a `CREATE INDEX CONCURRENTLY` statement up to its
table name. -/
def xCIConc : List Char := "CREATE INDEX CONCURRENTLY idx_email ON ".toList

/-- Concrete script prefix: the otherwise-identical non-concurrent statement
up to its table name. -/
def xCIPlain : List Char := "CREATE INDEX idx_email ON ".toList

/-- Concrete script prefix: a `CREATE UNIQUE INDEX CONCURRENTLY` statement up
to its table name. -/
def xUniqueConc : List Char := "CREATE UNIQUE INDEX CONCURRENTLY idx_email ON ".toList

/-- `CREATE INDEX CONCURRENTLY idx_email ON <t>` for a table name `t`. -/
def sqlCreateIndexConc (t : List Char) : String := String.mk (xCIConc ++ t)

/-- `CREATE INDEX idx_email ON <t>` for a table name `t`. -/
def sqlCreateIndex (t : List Char) : String := String.mk (xCIPlain ++ t)

/-- `CREATE UNIQUE INDEX CONCURRENTLY idx_email ON <t>` for a table name `t`. -/
def sqlCreateUniqueIndexConc (t : List Char) : String := String.mk (xUniqueConc ++ t)

/-- Two metadata records that agree except possibly on `sizeBytes`. -/
def MetaSizeOnly (a b : TableMeta) : Prop := a.name = b.name ∧ a.rowCount = b.rowCount

/-- The suggestion text mentions a default value (case-insensitive occurrence
of `DEFAULT`, the same textual scan the rule itself uses). -/
def mentionsDefault (s : String) : Bool := testDefault s.toList

/-! ### Theorems: basic facts about the matcher primitives -/

theorem word_not_ws {c : Char} (h : isWordChar c = true) : isWsChar c = false := by
  by_contra hne
  have hw : isWsChar c = true := by revert hne; cases isWsChar c <;> simp
  simp only [isWsChar, Bool.or_eq_true, beq_iff_eq] at hw
  rcases hw with ((((h1 | h1) | h1) | h1) | h1) | h1 <;> subst h1 <;> exact absurd h (by decide)

theorem word_ne_quote {c : Char} (h : isWordChar c = true) : c ≠ '\"' := by
  intro he
  subst he
  exact absurd h (by decide)

theorem allWord_cons {c : Char} {t : List Char} (h : allWord (c :: t)) :
    isWordChar c = true ∧ allWord t := by
  refine ⟨h c (List.mem_cons_self c t), fun d hd => h d (List.mem_cons_of_mem c hd)⟩

theorem allWord_append_right {a b : List Char} (h : allWord (a ++ b)) : allWord b :=
  fun c hc => h c (List.mem_append_right a hc)

theorem matchLit_suffix :
    ∀ (cs s r : List Char), matchLit cs s = some r → ∃ u, s = u ++ r := by
  intro cs
  induction cs with
  | nil =>
    intro s r h
    simp only [matchLit, Option.some.injEq] at h
    exact ⟨[], by simp [h]⟩
  | cons c cs ih =>
    intro s r h
    cases s with
    | nil => simp [matchLit] at h
    | cons d s2 =>
      simp only [matchLit] at h
      split at h
      · obtain ⟨u, hu⟩ := ih s2 r h
        exact ⟨d :: u, by simp [hu]⟩
      · exact absurd h (by simp)

theorem matchWs1_allWord {u : List Char} (h : allWord u) : matchWs1 u = none := by
  cases u with
  | nil => rfl
  | cons c cs =>
    have hc := (allWord_cons h).1
    simp [matchWs1, word_not_ws hc]

theorem dropWsChars_allWord {u : List Char} (h : allWord u) : dropWsChars u = u := by
  cases u with
  | nil => rfl
  | cons c cs =>
    have hc := (allWord_cons h).1
    simp [dropWsChars, word_not_ws hc]

theorem dropWsChars_append {u : List Char} (h : allWord u) :
    ∀ r, dropWsChars (r ++ u) = dropWsChars r ++ u := by
  intro r
  induction r with
  | nil => simpa using dropWsChars_allWord h
  | cons d r2 ih =>
    by_cases hd : isWsChar d = true
    · simp [dropWsChars, hd, ih]
    · simp only [Bool.not_eq_true] at hd
      simp [dropWsChars, hd]

theorem takeWordChars_allWord {u : List Char} (h : allWord u) : takeWordChars u = (u, []) := by
  induction u with
  | nil => rfl
  | cons c cs ih =>
    obtain ⟨hc, hcs⟩ := allWord_cons h
    simp [takeWordChars, hc, ih hcs]

theorem takeWordChars_append {u : List Char} (h : allWord u) (r : List Char) :
    takeWordChars (r ++ u) =
      (if (takeWordChars r).2.isEmpty then ((takeWordChars r).1 ++ u, ([] : List Char))
       else ((takeWordChars r).1, (takeWordChars r).2 ++ u)) := by
  induction r with
  | nil => simpa [takeWordChars] using takeWordChars_allWord h
  | cons c r2 ih =>
    by_cases hc : isWordChar c = true
    · simp only [List.cons_append, takeWordChars, hc, if_true, List.append_eq]
      rw [ih]
      by_cases he : (takeWordChars r2).2.isEmpty <;> simp [he]
    · simp only [Bool.not_eq_true] at hc
      simp [takeWordChars, hc]

theorem dropOptQuote_allWord {u : List Char} (h : allWord u) : dropOptQuote u = u := by
  cases u with
  | nil => rfl
  | cons c cs =>
    have hc := (allWord_cons h).1
    simp [dropOptQuote, word_ne_quote hc]

theorem dropOptQuote_append {u : List Char} (h : allWord u) (r : List Char) :
    dropOptQuote (r ++ u) = dropOptQuote r ++ u := by
  cases r with
  | nil => simpa using dropOptQuote_allWord h
  | cons d r2 =>
    by_cases hd : d = '\"' <;> simp [dropOptQuote, hd]

theorem symLit_ok {u : List Char} (h : allWord u) :
    ∀ (cs r r2 : List Char), symLit cs r = .ok r2 → matchLit cs (r ++ u) = some (r2 ++ u) := by
  intro cs
  induction cs with
  | nil =>
    intro r r2 hs
    simp only [symLit, LitRes.ok.injEq] at hs
    simp [matchLit, hs]
  | cons c cs ih =>
    intro r r2 hs
    cases r with
    | nil => simp [symLit] at hs
    | cons d r3 =>
      simp only [symLit] at hs
      split at hs
      · simpa [matchLit, *] using ih r3 r2 hs
      · exact absurd hs (by simp)

theorem symLit_fail {u : List Char} (h : allWord u) :
    ∀ (cs r : List Char), symLit cs r = .fail → matchLit cs (r ++ u) = none := by
  intro cs
  induction cs with
  | nil => intro r hs; simp [symLit] at hs
  | cons c cs ih =>
    intro r hs
    cases r with
    | nil => simp [symLit] at hs
    | cons d r3 =>
      simp only [symLit] at hs
      split at hs
      · simpa [matchLit, *] using ih r3 hs
      · simp only [List.cons_append, matchLit]
        split
        · exact absurd (by assumption) (by assumption)
        · rfl

theorem symLit_tail {u : List Char} (h : allWord u) :
    ∀ (cs r : List Char), symLit cs r = .tail →
      matchLit cs (r ++ u) = none ∨ ∃ v, matchLit cs (r ++ u) = some v ∧ allWord v := by
  intro cs
  induction cs with
  | nil => intro r hs; simp [symLit] at hs
  | cons c cs ih =>
    intro r hs
    cases r with
    | nil =>
      simp only [List.nil_append]
      cases hm : matchLit (c :: cs) u with
      | none => exact Or.inl rfl
      | some v =>
        obtain ⟨w, hw⟩ := matchLit_suffix (c :: cs) u v hm
        exact Or.inr ⟨v, rfl, allWord_append_right (hw ▸ h)⟩
    | cons d r3 =>
      simp only [symLit] at hs
      split at hs
      · rcases ih r3 hs with hn | ⟨v, hv, hav⟩
        · exact Or.inl (by simpa [matchLit, *] using hn)
        · exact Or.inr ⟨v, by simpa [matchLit, *] using hv, hav⟩
      · exact absurd hs (by simp)


theorem jsRound_eq (q : ℚ) : jsRound q = ⌊q + 1 / 2⌋ := by
  unfold jsRound
  rw [Rat.floor_def', ← Rat.floor_def]

theorem jsRound_nonneg {q : ℚ} (h : 0 ≤ q) : 0 ≤ jsRound q := by
  rw [jsRound_eq]
  exact Int.le_floor.mpr (by push_cast; linarith)

theorem jsRound_le_100 {q : ℚ} (h : q ≤ 100) : jsRound q ≤ 100 := by
  rw [jsRound_eq]
  have h2 : ⌊q + 1 / 2⌋ < 101 := Int.floor_lt.mpr (by push_cast; linarith)
  omega

theorem word_ne_semi {c : Char} (h : isWordChar c = true) : c ≠ ';' := by
  intro he
  subst he
  exact absurd h (by decide)

theorem matchWs1_append {u : List Char} (h : allWord u) (d : Char) (r2 : List Char)
    (hd : isWsChar d = true) :
    matchWs1 ((d :: r2) ++ u) = some (dropWsChars r2 ++ u) := by
  simp only [List.cons_append, matchWs1, hd, if_true, dropWsChars_append h r2]

theorem dropWsChars_suffix : ∀ s : List Char, ∃ w, s = w ++ dropWsChars s := by
  intro s
  induction s with
  | nil => exact ⟨[], rfl⟩
  | cons c cs ih =>
    by_cases hc : isWsChar c = true
    · obtain ⟨w, hw⟩ := ih
      exact ⟨c :: w, by simp [dropWsChars, hc, ← hw]⟩
    · simp only [Bool.not_eq_true] at hc
      exact ⟨[], by simp [dropWsChars, hc]⟩

theorem matchWs1_suffix {s r : List Char} (h : matchWs1 s = some r) : ∃ w, s = w ++ r := by
  cases s with
  | nil => simp [matchWs1] at h
  | cons c cs =>
    simp only [matchWs1] at h
    split at h
    · obtain ⟨w, hw⟩ := dropWsChars_suffix cs
      simp only [Option.some.injEq] at h
      exact ⟨c :: w, by simp [← h, ← hw]⟩
    · exact absurd h (by simp)

theorem runSToks_suffix : ∀ (g : List STok) (s r : List Char),
    runSToks g s = some r → ∃ w, s = w ++ r := by
  intro g
  induction g with
  | nil =>
    intro s r h
    simp only [runSToks, Option.some.injEq] at h
    exact ⟨[], by simp [h]⟩
  | cons tk g ih =>
    intro s r h
    cases tk with
    | lit cs =>
      simp only [runSToks] at h
      cases hm : matchLit cs s with
      | none => rw [hm] at h; simp at h
      | some v =>
        rw [hm] at h
        have h2 : runSToks g v = some r := h
        obtain ⟨w1, hw1⟩ := matchLit_suffix cs s v hm
        obtain ⟨w2, hw2⟩ := ih v r h2
        exact ⟨w1 ++ w2, by simp [hw1, hw2]⟩
    | ws1 =>
      simp only [runSToks] at h
      cases hm : matchWs1 s with
      | none => rw [hm] at h; simp at h
      | some v =>
        rw [hm] at h
        have h2 : runSToks g v = some r := h
        obtain ⟨w1, hw1⟩ := matchWs1_suffix hm
        obtain ⟨w2, hw2⟩ := ih v r h2
        exact ⟨w1 ++ w2, by simp [hw1, hw2]⟩

theorem runSToks_allWord (g : List STok) {w : List Char} (h : allWord w) :
    runSToks g w = none ∨ ∃ v, runSToks g w = some v ∧ allWord v := by
  induction g generalizing w with
  | nil => exact Or.inr ⟨w, rfl, h⟩
  | cons tk g ih =>
    cases tk with
    | lit cs =>
      cases hm : matchLit cs w with
      | none => exact Or.inl (by simp [runSToks, hm])
      | some v =>
        obtain ⟨w1, hw1⟩ := matchLit_suffix cs w v hm
        have hv : allWord v := allWord_append_right (hw1 ▸ h)
        rcases ih hv with hn | ⟨v2, hv2, hav2⟩
        · exact Or.inl (by simp [runSToks, hm, hn])
        · exact Or.inr ⟨v2, by simp [runSToks, hm, hv2], hav2⟩
    | ws1 => exact Or.inl (by simp [runSToks, matchWs1_allWord h])

theorem symSToks_ok {u : List Char} (h : allWord u) :
    ∀ (g : List STok) (r r2 : List Char), symSToks g r = .ok r2 →
      runSToks g (r ++ u) = some (r2 ++ u) := by
  intro g
  induction g with
  | nil =>
    intro r r2 hs
    simp only [symSToks, LitRes.ok.injEq] at hs
    simp [runSToks, hs]
  | cons tk g ih =>
    intro r r2 hs
    cases tk with
    | lit cs =>
      cases hm : symLit cs r with
      | fail => rw [symSToks, hm] at hs; exact absurd hs (by simp)
      | tail => rw [symSToks, hm] at hs; exact absurd hs (by simp)
      | ok r3 =>
        rw [symSToks, hm] at hs
        simp [runSToks, symLit_ok h cs r r3 hm, ih r3 r2 hs]
    | ws1 =>
      cases r with
      | nil => simp [symSToks] at hs
      | cons d r3 =>
        simp only [symSToks] at hs
        split at hs
        · rw [runSToks, matchWs1_append h d r3 (by assumption)]
          simp [ih (dropWsChars r3) r2 hs]
        · exact absurd hs (by simp)

theorem symSToks_fail {u : List Char} (h : allWord u) :
    ∀ (g : List STok) (r : List Char), symSToks g r = .fail →
      runSToks g (r ++ u) = none := by
  intro g
  induction g with
  | nil => intro r hs; simp [symSToks] at hs
  | cons tk g ih =>
    intro r hs
    cases tk with
    | lit cs =>
      cases hm : symLit cs r with
      | fail => simp [runSToks, symLit_fail h cs r hm]
      | tail => rw [symSToks, hm] at hs; exact absurd hs (by simp)
      | ok r3 =>
        rw [symSToks, hm] at hs
        simp [runSToks, symLit_ok h cs r r3 hm, ih r3 hs]
    | ws1 =>
      cases r with
      | nil => simp [runSToks, matchWs1_allWord h]
      | cons d r3 =>
        simp only [symSToks] at hs
        split at hs
        · rw [runSToks, matchWs1_append h d r3 (by assumption)]
          simp [ih (dropWsChars r3) hs]
        · simp only [Bool.not_eq_true] at *
          simp [runSToks, matchWs1, *]

theorem symSToks_tail {u : List Char} (h : allWord u) :
    ∀ (g : List STok) (r : List Char), symSToks g r = .tail →
      runSToks g (r ++ u) = none ∨ ∃ v, runSToks g (r ++ u) = some v ∧ allWord v := by
  intro g
  induction g with
  | nil => intro r hs; simp [symSToks] at hs
  | cons tk g ih =>
    intro r hs
    cases tk with
    | lit cs =>
      cases hm : symLit cs r with
      | fail => rw [symSToks, hm] at hs; exact absurd hs (by simp)
      | ok r3 =>
        rw [symSToks, hm] at hs
        rcases ih r3 hs with hn | ⟨v, hv, hav⟩
        · exact Or.inl (by simp [runSToks, symLit_ok h cs r r3 hm, hn])
        · exact Or.inr ⟨v, by simp [runSToks, symLit_ok h cs r r3 hm, hv], hav⟩
      | tail =>
        rcases symLit_tail h cs r hm with hn | ⟨v, hv, hav⟩
        · exact Or.inl (by simp [runSToks, hn])
        · rcases runSToks_allWord g hav with hn2 | ⟨v2, hv2, hav2⟩
          · exact Or.inl (by simp [runSToks, hv, hn2])
          · exact Or.inr ⟨v2, by simp [runSToks, hv, hv2], hav2⟩
    | ws1 =>
      cases r with
      | nil => simp [symSToks] at hs
      | cons d r3 =>
        simp only [symSToks] at hs
        split at hs
        · rcases ih (dropWsChars r3) hs with hn | ⟨v, hv, hav⟩
          · exact Or.inl (by rw [runSToks, matchWs1_append h d r3 (by assumption)]; simpa using hn)
          · exact Or.inr ⟨v, by rw [runSToks, matchWs1_append h d r3 (by assumption)]; simpa using hv, hav⟩
        · exact absurd hs (by simp)

theorem failsOnAllWord_sound (ts : List RTok) (h : failsOnAllWord ts = true)
    (u : List Char) (hu : allWord u) : runToks ts u = none := by
  induction ts generalizing u with
  | nil => simp [failsOnAllWord] at h
  | cons t ts ih =>
    cases t with
    | lit cs =>
      have h2 : failsOnAllWord ts = true := by simpa [failsOnAllWord] using h
      cases hm : matchLit cs u with
      | none => simp [runToks, hm]
      | some v =>
        obtain ⟨w, hw⟩ := matchLit_suffix cs u v hm
        have hv : allWord v := allWord_append_right (hw ▸ hu)
        simp [runToks, hm, ih h2 v hv]
    | ws1 => simp [runToks, matchWs1_allWord hu]
    | word1 =>
      have h2 : failsOnAllWord ts = true := by simpa [failsOnAllWord] using h
      cases u with
      | nil => simp [runToks, matchWord1]
      | cons c u2 =>
        obtain ⟨hc, hu2⟩ := allWord_cons hu
        simp [runToks, matchWord1, hc, takeWordChars_allWord hu2,
          ih h2 [] (by intro d hd; simp at hd)]
    | cap =>
      have h2 : failsOnAllWord ts = true := by simpa [failsOnAllWord] using h
      cases u with
      | nil => simp [runToks, matchWord1]
      | cons c u2 =>
        obtain ⟨hc, hu2⟩ := allWord_cons hu
        simp [runToks, matchWord1, hc, takeWordChars_allWord hu2,
          ih h2 [] (by intro d hd; simp at hd)]
    | optQuote =>
      have h2 : failsOnAllWord ts = true := by simpa [failsOnAllWord] using h
      simp [runToks, dropOptQuote_allWord hu, ih h2 u hu]
    | opt g =>
      have h2 : failsOnAllWord ts = true := by simpa [failsOnAllWord] using h
      rcases runSToks_allWord g hu with hn | ⟨v, hv, hav⟩
      · simp [runToks, hn, ih h2 u hu]
      · simp [runToks, hv, ih h2 v hav, ih h2 u hu, Option.orElse]
    | negLook cs =>
      have h2 : failsOnAllWord ts = true := by simpa [failsOnAllWord] using h
      by_cases hm : (matchLit cs u).isSome = true
      · simp [runToks, hm]
      · simp only [Bool.not_eq_true] at hm
        simp [runToks, hm, ih h2 u hu]

theorem noMatchAt_sound (ts : List RTok) (r : List Char) (h : noMatchAt ts r = true)
    (u : List Char) (hu : allWord u) : runToks ts (r ++ u) = none := by
  induction ts generalizing r with
  | nil => simp [noMatchAt] at h
  | cons t ts ih =>
    cases t with
    | lit cs =>
      cases hsym : symLit cs r with
      | fail => simp [runToks, symLit_fail hu cs r hsym]
      | ok r2 =>
        have h2 : noMatchAt ts r2 = true := by simpa [noMatchAt, hsym] using h
        simp [runToks, symLit_ok hu cs r r2 hsym, ih r2 h2]
      | tail =>
        have h2 : failsOnAllWord ts = true := by simpa [noMatchAt, hsym] using h
        rcases symLit_tail hu cs r hsym with hm | ⟨v, hm, hav⟩
        · simp [runToks, hm]
        · simp [runToks, hm, failsOnAllWord_sound ts h2 v hav]
    | ws1 =>
      cases r with
      | nil => simp [runToks, matchWs1_allWord hu]
      | cons d r2 =>
        by_cases hd : isWsChar d = true
        · have h2 : noMatchAt ts (dropWsChars r2) = true := by
            simpa [noMatchAt, hd] using h
          rw [List.cons_append, runToks, matchWs1, if_pos hd, Option.some_bind,
            dropWsChars_append hu r2]
          exact ih (dropWsChars r2) h2
        · simp only [Bool.not_eq_true] at hd
          simp [runToks, matchWs1, hd]
    | word1 =>
      cases r with
      | nil =>
        have h2 : failsOnAllWord ts = true := by simpa [noMatchAt] using h
        cases u with
        | nil => simp [runToks, matchWord1]
        | cons c u2 =>
          obtain ⟨hc, hu2⟩ := allWord_cons hu
          simp [runToks, matchWord1, hc, takeWordChars_allWord hu2,
            failsOnAllWord_sound ts h2 [] (by intro d hd; simp at hd)]
      | cons d r2 =>
        by_cases hd : isWordChar d = true
        · by_cases he : (takeWordChars r2).2.isEmpty = true
          · have h2 : failsOnAllWord ts = true := by simpa [noMatchAt, hd, he] using h
            simp only [List.cons_append, runToks, matchWord1, hd, if_true,
              Option.some_bind, takeWordChars_append hu r2, he]
            exact failsOnAllWord_sound ts h2 [] (by intro d2 hd2; simp at hd2)
          · have h2 : noMatchAt ts (takeWordChars r2).2 = true := by
              simpa [noMatchAt, hd, he] using h
            simp only [List.cons_append, runToks, matchWord1, hd, if_true,
              Option.some_bind, takeWordChars_append hu r2, he, if_false]
            exact ih (takeWordChars r2).2 h2
        · simp only [Bool.not_eq_true] at hd
          simp [runToks, matchWord1, hd]
    | cap =>
      cases r with
      | nil =>
        have h2 : failsOnAllWord ts = true := by simpa [noMatchAt] using h
        cases u with
        | nil => simp [runToks, matchWord1]
        | cons c u2 =>
          obtain ⟨hc, hu2⟩ := allWord_cons hu
          simp [runToks, matchWord1, hc, takeWordChars_allWord hu2,
            failsOnAllWord_sound ts h2 [] (by intro d hd; simp at hd)]
      | cons d r2 =>
        by_cases hd : isWordChar d = true
        · by_cases he : (takeWordChars r2).2.isEmpty = true
          · have h2 : failsOnAllWord ts = true := by simpa [noMatchAt, hd, he] using h
            simp only [List.cons_append, runToks, matchWord1, hd, if_true,
              Option.some_bind, takeWordChars_append hu r2, he]
            simp [failsOnAllWord_sound ts h2 [] (by intro d2 hd2; simp at hd2)]
          · have h2 : noMatchAt ts (takeWordChars r2).2 = true := by
              simpa [noMatchAt, hd, he] using h
            simp only [List.cons_append, runToks, matchWord1, hd, if_true,
              Option.some_bind, takeWordChars_append hu r2, he, if_false]
            simp [ih (takeWordChars r2).2 h2]
        · simp only [Bool.not_eq_true] at hd
          simp [runToks, matchWord1, hd]
    | optQuote =>
      have h2 : noMatchAt ts (dropOptQuote r) = true := by simpa [noMatchAt] using h
      simp only [runToks]
      rw [dropOptQuote_append hu r]
      exact ih (dropOptQuote r) h2
    | opt g =>
      cases hsym : symSToks g r with
      | fail =>
        have h2 : noMatchAt ts r = true := by simpa [noMatchAt, hsym] using h
        simp [runToks, symSToks_fail hu g r hsym, ih r h2]
      | ok r2 =>
        have h2 : noMatchAt ts r2 = true ∧ noMatchAt ts r = true := by
          simpa [noMatchAt, hsym] using h
        simp [runToks, symSToks_ok hu g r r2 hsym, ih r2 h2.1, ih r h2.2, Option.orElse]
      | tail =>
        have h2 : failsOnAllWord ts = true ∧ noMatchAt ts r = true := by
          simpa [noMatchAt, hsym] using h
        rcases symSToks_tail hu g r hsym with hn | ⟨v, hv, hav⟩
        · simp [runToks, hn, ih r h2.2]
        · simp [runToks, hv, failsOnAllWord_sound ts h2.1 v hav, ih r h2.2, Option.orElse]
    | negLook cs =>
      cases hsym : symLit cs r with
      | ok r2 => simp [runToks, symLit_ok hu cs r r2 hsym]
      | fail =>
        have h2 : noMatchAt ts r = true := by simpa [noMatchAt, hsym] using h
        simp [runToks, symLit_fail hu cs r hsym, ih r h2]
      | tail =>
        have h2 : noMatchAt ts r = true := by simpa [noMatchAt, hsym] using h
        rcases symLit_tail hu cs r hsym with hm | ⟨v, hm, _⟩
        · simp [runToks, hm, ih r h2]
        · simp [runToks, hm]

theorem capTailRun_sound (ts : List RTok) (r : List Char) (h : capTailRun ts r = true)
    (t : List Char) (ht : allWord t) (htne : t ≠ []) :
    runToks ts (r ++ t) = some (some t, []) := by
  induction ts generalizing r with
  | nil => simp [capTailRun] at h
  | cons tk ts ih =>
    cases tk with
    | lit cs =>
      cases hsym : symLit cs r with
      | fail => simp [capTailRun, hsym] at h
      | tail => simp [capTailRun, hsym] at h
      | ok r2 =>
        have h2 : capTailRun ts r2 = true := by simpa [capTailRun, hsym] using h
        simp [runToks, symLit_ok ht cs r r2 hsym, ih r2 h2]
    | ws1 =>
      cases r with
      | nil => simp [capTailRun] at h
      | cons d r2 =>
        have h2 : isWsChar d = true ∧ capTailRun ts (dropWsChars r2) = true := by
          simpa [capTailRun] using h
        rw [List.cons_append, runToks, matchWs1, if_pos h2.1, Option.some_bind,
          dropWsChars_append ht r2]
        exact ih (dropWsChars r2) h2.2
    | word1 =>
      cases r with
      | nil => simp [capTailRun] at h
      | cons d r2 =>
        have h2 : isWordChar d = true ∧ ((takeWordChars r2).2.isEmpty = false ∧
            capTailRun ts (takeWordChars r2).2 = true) := by
          simpa [capTailRun] using h
        simp only [List.cons_append, runToks, matchWord1, h2.1, if_true,
          Option.some_bind, takeWordChars_append ht r2, h2.2.1, Bool.false_eq_true,
          if_false]
        exact ih (takeWordChars r2).2 h2.2.2
    | cap =>
      cases ts with
      | cons tk2 ts2 => simp [capTailRun] at h
      | nil =>
        have hr : r = [] := by simpa [capTailRun, List.isEmpty_iff] using h
        subst hr
        cases t with
        | nil => exact absurd rfl htne
        | cons c t2 =>
          obtain ⟨hc, ht2⟩ := allWord_cons ht
          simp [runToks, matchWord1, hc, takeWordChars_allWord ht2]
    | optQuote =>
      have h2 : capTailRun ts (dropOptQuote r) = true := by simpa [capTailRun] using h
      simp only [runToks]
      rw [dropOptQuote_append ht r]
      exact ih (dropOptQuote r) h2
    | opt g =>
      cases hsym : symSToks g r with
      | tail => simp [capTailRun, hsym] at h
      | fail =>
        have h2 : capTailRun ts r = true := by simpa [capTailRun, hsym] using h
        simp [runToks, symSToks_fail ht g r hsym, ih r h2]
      | ok r2 =>
        by_cases h1 : capTailRun ts r2 = true
        · simp [runToks, symSToks_ok ht g r r2 hsym, ih r2 h1, Option.orElse]
        · have h2 : noMatchAt ts r2 = true ∧ capTailRun ts r = true := by
            simpa [capTailRun, hsym, h1] using h
          simp [runToks, symSToks_ok ht g r r2 hsym, noMatchAt_sound ts r2 h2.1 t ht,
            ih r h2.2, Option.orElse]
    | negLook cs =>
      cases hsym : symLit cs r with
      | ok r2 => simp [capTailRun, hsym] at h
      | tail => simp [capTailRun, hsym] at h
      | fail =>
        have h2 : capTailRun ts r = true := by simpa [capTailRun, hsym] using h
        simp [runToks, symLit_fail ht cs r hsym, ih r h2]

/-! ### Search-level soundness of the certificates -/

theorem searchPat_of_head {α : Type} (p : List Char → Option α) (s : List Char) (v : α)
    (h : p s = some v) : searchPat p s = some v := by
  cases s <;> simp [searchPat, h]

theorem searchPat_allWord_none (pt : List RTok) (hfa : failsOnAllWord pt = true) :
    ∀ u, allWord u → searchPat (runToks pt) u = none := by
  intro u
  induction u with
  | nil => intro hu; simp [searchPat, failsOnAllWord_sound pt hfa [] hu]
  | cons c cs ih =>
    intro hu
    have h1 := failsOnAllWord_sound pt hfa (c :: cs) hu
    simp [searchPat, h1, ih (allWord_cons hu).2]

theorem certNoMatch_soundAux (pt : List RTok) (hfa : failsOnAllWord pt = true)
    (t : List Char) (ht : allWord t) :
    ∀ x : List Char, (∀ r ∈ x.tails, noMatchAt pt r = true) → reSearch pt (x ++ t) = none := by
  intro x
  induction x with
  | nil => intro _; simpa [reSearch] using searchPat_allWord_none pt hfa t ht
  | cons c x2 ih =>
    intro hall
    have hhead : noMatchAt pt (c :: x2) = true := hall (c :: x2) (by simp [List.tails_cons])
    have h1 := noMatchAt_sound pt (c :: x2) hhead t ht
    have h2 : reSearch pt (x2 ++ t) = none :=
      ih (fun r hr => hall r (by simp only [List.tails_cons, List.mem_cons]; exact Or.inr hr))
    simp only [reSearch, List.cons_append, searchPat] at h2 ⊢
    rw [show (c :: x2) ++ t = c :: (x2 ++ t) from rfl] at h1
    simp [h1, h2]

/-- Soundness of the no-match certificate: if `certNoMatch pt x` holds, the
pattern `pt` matches nowhere in `x ++ t`, for every all-word `t`. -/
theorem certNoMatch_sound (pt : List RTok) (x : List Char) (hc : certNoMatch pt x = true)
    (t : List Char) (ht : allWord t) : reSearch pt (x ++ t) = none := by
  have h2 : (∀ r ∈ x.tails, noMatchAt pt r = true) ∧ failsOnAllWord pt = true := by
    simpa [certNoMatch, List.all_eq_true] using hc
  exact certNoMatch_soundAux pt h2.2 t ht x h2.1

/-- Soundness of the captures-the-tail certificate. -/
theorem reSearch_capTail (pt : List RTok) (x : List Char) (hc : capTailRun pt x = true)
    (t : List Char) (ht : allWord t) (htne : t ≠ []) :
    reSearch pt (x ++ t) = some (some t, []) :=
  searchPat_of_head _ _ _ (capTailRun_sound pt x hc t ht htne)


/-! ### Splitting and trimming a single-statement script -/

theorem splitSemisAux_no_semi :
    ∀ (s acc : List Char), (∀ c ∈ s, c ≠ ';') → splitSemisAux acc s = [acc.reverse ++ s] := by
  intro s
  induction s with
  | nil => intro acc _; simp [splitSemisAux]
  | cons c cs ih =>
    intro acc h
    have hc : c ≠ ';' := h c (List.mem_cons_self c cs)
    have hcs : ∀ d ∈ cs, d ≠ ';' := fun d hd => h d (List.mem_cons_of_mem c hd)
    simp [splitSemisAux, hc, ih (c :: acc) hcs]

theorem dropWsChars_eq_self {s : List Char}
    (h : ∀ c, s.head? = some c → isWsChar c = false) : dropWsChars s = s := by
  cases s with
  | nil => rfl
  | cons c cs => simp [dropWsChars, h c rfl]

theorem trimChars_of_ends {s : List Char}
    (h1 : ∀ c, s.head? = some c → isWsChar c = false)
    (h2 : ∀ c, s.reverse.head? = some c → isWsChar c = false) : trimChars s = s := by
  unfold trimChars
  rw [dropWsChars_eq_self h1, dropWsChars_eq_self h2, List.reverse_reverse]

theorem statementsOf_single (x t : List Char) (hx : ∀ c ∈ x, c ≠ ';') (hw : allWord t)
    (ht : t ≠ []) (hxh : ∀ c, (x ++ t).head? = some c → isWsChar c = false) :
    statementsOf (String.mk (x ++ t)) = [x ++ t] := by
  have hnosemi : ∀ c ∈ x ++ t, c ≠ ';' := by
    intro c hc
    rcases List.mem_append.mp hc with hcx | hct
    · exact hx c hcx
    · exact word_ne_semi (hw c hct)
  have htrev : t.reverse ≠ [] := by simpa using ht
  have hrev : ∀ c, (x ++ t).reverse.head? = some c → isWsChar c = false := by
    intro c hc
    rw [List.reverse_append, List.head?_append_of_ne_nil t.reverse htrev] at hc
    have hmem : c ∈ t.reverse := List.mem_of_mem_head? hc
    exact word_not_ws (hw c (List.mem_reverse.mp hmem))
  have hne : (x ++ t).isEmpty = false := by
    have hnn : x ++ t ≠ [] := fun hn => ht (List.append_eq_nil.mp hn).2
    simpa [List.isEmpty_iff] using hnn
  simp only [statementsOf, show String.toList (String.mk (x ++ t)) = x ++ t from rfl,
    splitSemisAux_no_semi (x ++ t) [] hnosemi, List.map_cons, List.map_nil,
    List.reverse_nil, List.nil_append, trimChars_of_ends hxh hrev, List.filter]
  simp [hne]

/-! ### The aggregation step -/

theorem SCORES_lt_iff (a b : RiskLevel) : SCORES a < SCORES b ↔ rank a < rank b := by
  cases a <;> cases b <;> norm_num [SCORES, rank]

theorem SCORES_nonneg (a : RiskLevel) : 0 ≤ SCORES a := by
  cases a <;> norm_num [SCORES]

theorem SCORES_le_100 (a : RiskLevel) : SCORES a ≤ 100 := by
  cases a <;> norm_num [SCORES]

theorem rank_inj {a b : RiskLevel} (h : rank a = rank b) : a = b := by
  cases a <;> cases b <;> simp [rank] at h ⊢

theorem foldlRisk_init_le :
    ∀ (l : List RiskItem) (m : RiskLevel),
      rank m ≤ rank (l.foldl
        (fun mx op => if SCORES mx < SCORES op.riskLevel then op.riskLevel else mx) m) := by
  intro l
  induction l with
  | nil => intro m; simp
  | cons a l ih =>
    intro m
    simp only [List.foldl_cons]
    refine le_trans ?_ (ih _)
    by_cases hlt : SCORES m < SCORES a.riskLevel
    · simp only [hlt, if_true]
      exact le_of_lt ((SCORES_lt_iff m a.riskLevel).mp hlt)
    · simp [hlt]

theorem foldlRisk_mem_le :
    ∀ (l : List RiskItem) (m : RiskLevel) (i : RiskItem), i ∈ l →
      rank i.riskLevel ≤ rank (l.foldl
        (fun mx op => if SCORES mx < SCORES op.riskLevel then op.riskLevel else mx) m) := by
  intro l
  induction l with
  | nil => intro m i hi; simp at hi
  | cons a l ih =>
    intro m i hi
    simp only [List.foldl_cons]
    rcases List.mem_cons.mp hi with he | hm
    · subst he
      refine le_trans ?_ (foldlRisk_init_le l _)
      by_cases hlt : SCORES m < SCORES i.riskLevel
      · simp [hlt]
      · simp only [hlt, if_false]
        have := (SCORES_lt_iff m i.riskLevel).not.mp hlt
        omega
    · exact ih _ i hm

theorem foldlRisk_mem :
    ∀ (l : List RiskItem) (m : RiskLevel),
      l.foldl (fun mx op => if SCORES mx < SCORES op.riskLevel then op.riskLevel else mx) m = m ∨
      ∃ i ∈ l, l.foldl
        (fun mx op => if SCORES mx < SCORES op.riskLevel then op.riskLevel else mx) m
        = i.riskLevel := by
  intro l
  induction l with
  | nil => intro m; exact Or.inl rfl
  | cons a l ih =>
    intro m
    simp only [List.foldl_cons]
    by_cases hlt : SCORES m < SCORES a.riskLevel
    · simp only [hlt, if_true]
      rcases ih a.riskLevel with he | ⟨i, hi, he⟩
      · exact Or.inr ⟨a, List.mem_cons_self a l, he⟩
      · exact Or.inr ⟨i, List.mem_cons_of_mem a hi, he⟩
    · simp only [hlt, if_false]
      rcases ih m with he | ⟨i, hi, he⟩
      · exact Or.inl he
      · exact Or.inr ⟨i, List.mem_cons_of_mem a hi, he⟩

theorem foldl_add_dur :
    ∀ (l : List RiskItem) (a : ℚ),
      l.foldl (fun s o => s + o.estimatedDurationMs) a
        = a + (l.map (fun o => o.estimatedDurationMs)).sum := by
  intro l
  induction l with
  | nil => intro a; simp
  | cons x l ih => intro a; simp [ih, add_assoc]

theorem foldl_add_scores :
    ∀ (l : List RiskItem) (a : ℚ),
      l.foldl (fun s o => s + SCORES o.riskLevel) a
        = a + (l.map (fun o => SCORES o.riskLevel)).sum := by
  intro l
  induction l with
  | nil => intro a; simp
  | cons x l ih => intro a; simp [ih, add_assoc]

theorem sum_scores_nonneg (l : List RiskItem) :
    0 ≤ (l.map (fun o => SCORES o.riskLevel)).sum := by
  induction l with
  | nil => simp
  | cons x l ih =>
    simp only [List.map_cons, List.sum_cons]
    have := SCORES_nonneg x.riskLevel
    linarith

theorem sum_scores_le (l : List RiskItem) :
    (l.map (fun o => SCORES o.riskLevel)).sum ≤ 100 * l.length := by
  induction l with
  | nil => simp
  | cons x l ih =>
    simp only [List.map_cons, List.sum_cons, List.length_cons]
    have := SCORES_le_100 x.riskLevel
    push_cast
    linarith

/-! ### Claim theorems -/

/-- C1: for every input script and metadata collection, the report's overall
risk level is the maximum ordinal risk level (low < medium < high < critical)
among the produced RiskItems — an upper bound attained by some item — or
`low` when there are no items, and the report's total estimated duration is
the rounded sum of the per-item estimated durations. -/
theorem c1_overall_and_total (sql : String) (tableMeta : List TableMeta) :
    (∀ i ∈ (analyze sql tableMeta).operations,
       rank i.riskLevel ≤ rank (analyze sql tableMeta).overallRisk) ∧
    ((analyze sql tableMeta).operations = [] →
       (analyze sql tableMeta).overallRisk = RiskLevel.low) ∧
    ((analyze sql tableMeta).operations ≠ [] →
       ∃ i ∈ (analyze sql tableMeta).operations,
         (analyze sql tableMeta).overallRisk = i.riskLevel) ∧
    (analyze sql tableMeta).totalEstimatedDurationMs =
      jsRound (((analyze sql tableMeta).operations.map (fun i => i.estimatedDurationMs)).sum) := by
  simp only [analyze]
  refine ⟨?_, ?_, ?_, ?_⟩
  · intro i hi
    exact foldlRisk_mem_le (operationsOf sql tableMeta) RiskLevel.low i hi
  · intro h
    simp [overallRiskOf, h]
  · intro h
    cases hops : operationsOf sql tableMeta with
    | nil => exact absurd hops h
    | cons a l =>
      rcases foldlRisk_mem (a :: l) RiskLevel.low with he | ⟨i, hi, he⟩
      · refine ⟨a, List.mem_cons_self a l, ?_⟩
        have hle := foldlRisk_mem_le (a :: l) RiskLevel.low a (List.mem_cons_self a l)
        rw [he] at hle
        have h1 : rank a.riskLevel = rank RiskLevel.low := by
          have h0 : rank RiskLevel.low = 0 := rfl
          omega
        show overallRiskOf (a :: l) = a.riskLevel
        unfold overallRiskOf
        rw [he]
        exact (rank_inj h1).symm
      · exact ⟨i, hi, he⟩
  · rw [totalDurationOf, foldl_add_dur, zero_add]

/-- C1 witness at a concrete input. -/
theorem c1_witness :
    (∀ i ∈ (analyze "DROP TABLE x;" []).operations,
       rank i.riskLevel ≤ rank (analyze "DROP TABLE x;" []).overallRisk) ∧
    ((analyze "DROP TABLE x;" []).operations = [] →
       (analyze "DROP TABLE x;" []).overallRisk = RiskLevel.low) ∧
    ((analyze "DROP TABLE x;" []).operations ≠ [] →
       ∃ i ∈ (analyze "DROP TABLE x;" []).operations,
         (analyze "DROP TABLE x;" []).overallRisk = i.riskLevel) ∧
    (analyze "DROP TABLE x;" []).totalEstimatedDurationMs =
      jsRound (((analyze "DROP TABLE x;" []).operations.map
        (fun i => i.estimatedDurationMs)).sum) :=
  c1_overall_and_total "DROP TABLE x;" []

/-- C5: the report's score is 0 when there are no items, otherwise the
rounded mean of the items' risk-level weights, and it always lies in
[0, 100]. -/
theorem c5_score (sql : String) (tableMeta : List TableMeta) :
    ((analyze sql tableMeta).operations = [] → (analyze sql tableMeta).score = 0) ∧
    ((analyze sql tableMeta).operations ≠ [] →
      (analyze sql tableMeta).score =
        jsRound (((analyze sql tableMeta).operations.map (fun i => SCORES i.riskLevel)).sum
          / ((analyze sql tableMeta).operations.length : ℚ))) ∧
    0 ≤ (analyze sql tableMeta).score ∧ (analyze sql tableMeta).score ≤ 100 := by
  simp only [analyze]
  have hmean : operationsOf sql tableMeta ≠ [] →
      scoreOf (operationsOf sql tableMeta) =
        jsRound (((operationsOf sql tableMeta).map (fun i => SCORES i.riskLevel)).sum
          / ((operationsOf sql tableMeta).length : ℚ)) := by
    intro h
    have hlen : (operationsOf sql tableMeta).length ≠ 0 := by
      simpa [List.length_eq_zero] using h
    rw [scoreOf, if_neg hlen, foldl_add_scores, zero_add]
  refine ⟨?_, hmean, ?_⟩
  · intro h
    simp [scoreOf, h]
  · by_cases h : operationsOf sql tableMeta = []
    · simp [scoreOf, h]
    · rw [hmean h]
      have hlenpos : (0 : ℚ) < ((operationsOf sql tableMeta).length : ℚ) := by
        have : 0 < (operationsOf sql tableMeta).length := List.length_pos.mpr h
        exact_mod_cast this
      constructor
      · exact jsRound_nonneg (div_nonneg (sum_scores_nonneg _) (le_of_lt hlenpos))
      · refine jsRound_le_100 ?_
        rw [div_le_iff₀ hlenpos]
        have := sum_scores_le (operationsOf sql tableMeta)
        linarith

/-- C5 witness at a concrete input. -/
theorem c5_witness :
    ((analyze "DROP TABLE x;" []).operations = [] → (analyze "DROP TABLE x;" []).score = 0) ∧
    ((analyze "DROP TABLE x;" []).operations ≠ [] →
      (analyze "DROP TABLE x;" []).score =
        jsRound (((analyze "DROP TABLE x;" []).operations.map
            (fun i => SCORES i.riskLevel)).sum
          / ((analyze "DROP TABLE x;" []).operations.length : ℚ))) ∧
    0 ≤ (analyze "DROP TABLE x;" []).score ∧ (analyze "DROP TABLE x;" []).score ≤ 100 :=
  c5_score "DROP TABLE x;" []

/-- C2: for every metadata collection, analyzing `DROP TABLE x;` yields
exactly one RiskItem — risk level critical, data loss true, lock type
`ACCESS EXCLUSIVE` (a full-table exclusive lock) — regardless of the
metadata supplied. -/
theorem c2_drop_table (tableMeta : List TableMeta) :
    (analyze "DROP TABLE x;" tableMeta).operations =
      [{ operation := "DROP TABLE", riskLevel := .critical, lockType := "ACCESS EXCLUSIVE",
         estimatedDurationMs := 50, dataLoss := true,
         suggestion := "Ensure full backup. Consider renaming to _deprecated instead.",
         table := "x" }] ∧
    (analyze "DROP TABLE x;" tableMeta).overallRisk = .critical ∧
    (analyze "DROP TABLE x;" tableMeta).totalEstimatedDurationMs = 50 ∧
    (analyze "DROP TABLE x;" tableMeta).score = 100 := by
  have hops : operationsOf "DROP TABLE x;" tableMeta =
      [{ operation := "DROP TABLE", riskLevel := .critical, lockType := "ACCESS EXCLUSIVE",
         estimatedDurationMs := 50, dataLoss := true,
         suggestion := "Ensure full backup. Consider renaming to _deprecated instead.",
         table := "x" }] := rfl
  refine ⟨rfl, rfl, ?_, ?_⟩
  · show totalDurationOf (operationsOf "DROP TABLE x;" tableMeta) = 50
    rw [hops]
    norm_num [totalDurationOf, jsRound_eq]
  · show scoreOf (operationsOf "DROP TABLE x;" tableMeta) = 100
    rw [hops]
    norm_num [scoreOf, SCORES, jsRound_eq]

/-- C4: an ADD COLUMN statement with the NOT NULL qualifier and no DEFAULT
clause (case-insensitive textual scan) is assessed high with a suggestion
mentioning a default value; one without NOT NULL is assessed low with data
loss false — stated for the rule's assessment function on every statement
text and metadata record, and end-to-end on the two spec statements for
every metadata collection. -/
theorem c4_add_column (m : TableMeta) (sql : List Char) (tableMeta : List TableMeta) :
    (testNotNull sql = true → testDefault sql = false →
       (assessAddColumn m sql).riskLevel = .high ∧
       mentionsDefault (assessAddColumn m sql).suggestion = true) ∧
    (testNotNull sql = false →
       (assessAddColumn m sql).riskLevel = .low ∧
       (assessAddColumn m sql).dataLoss = false) ∧
    ((analyze "ALTER TABLE x ADD COLUMN y int NOT NULL;" tableMeta).operations.map
        (fun i => (i.riskLevel, i.dataLoss, mentionsDefault i.suggestion)))
      = [(RiskLevel.high, false, true)] ∧
    ((analyze "ALTER TABLE x ADD COLUMN y text;" tableMeta).operations.map
        (fun i => (i.riskLevel, i.dataLoss)))
      = [(RiskLevel.low, false)] := by
  refine ⟨?_, ?_, rfl, rfl⟩
  · intro h1 h2
    simp [assessAddColumn, h1, h2, mentionsDefault]
    decide
  · intro h1
    simp [assessAddColumn, h1]

/-- C4 witness at the two concrete spec statements. -/
theorem c4_witness :
    ((assessAddColumn DEFAULT_META "ALTER TABLE x ADD COLUMN y int NOT NULL".toList).riskLevel
        = RiskLevel.high ∧
      mentionsDefault (assessAddColumn DEFAULT_META
        "ALTER TABLE x ADD COLUMN y int NOT NULL".toList).suggestion = true) ∧
    ((assessAddColumn DEFAULT_META "ALTER TABLE x ADD COLUMN y text".toList).riskLevel
        = RiskLevel.low ∧
      (assessAddColumn DEFAULT_META "ALTER TABLE x ADD COLUMN y text".toList).dataLoss
        = false) :=
  ⟨(c4_add_column DEFAULT_META "ALTER TABLE x ADD COLUMN y int NOT NULL".toList []).1
      (by decide) (by decide),
   (c4_add_column DEFAULT_META "ALTER TABLE x ADD COLUMN y text".toList []).2.1 (by decide)⟩

/-- Each factor score of the multi-factor scorer lies in [0, 100]. -/
theorem scoreTableSize_bounds (rowCount : ℚ) :
    0 ≤ (scoreTableSize rowCount).score ∧ (scoreTableSize rowCount).score ≤ 100 := by
  unfold scoreTableSize
  split_ifs <;> norm_num

theorem scoreLockRisk_bounds (migration : ParsedMigration) :
    0 ≤ (scoreLockRisk migration).score ∧ (scoreLockRisk migration).score ≤ 100 := by
  unfold scoreLockRisk
  dsimp only
  split_ifs <;> norm_num

theorem cascadeFactorOf_bounds (fk : ℚ) :
    0 ≤ (cascadeFactorOf fk).score ∧ (cascadeFactorOf fk).score ≤ 100 := by
  unfold cascadeFactorOf
  split_ifs <;> norm_num

theorem scoreDataLoss_bounds (migration : ParsedMigration) :
    0 ≤ (scoreDataLoss migration).score ∧ (scoreDataLoss migration).score ≤ 100 := by
  unfold scoreDataLoss
  dsimp only
  split_ifs <;> norm_num

/-- C6: the multi-factor scorer's overall score is the weighted combination
of the four factor scores with the fixed weights (table size 0.25,
lock 0.30, cascade 0.20, data loss 0.25), rounded to the nearest integer,
and it always lies in [0, 100]. -/
theorem c6_weighted_score (migration : ParsedMigration) (metadata : TableMetadata) :
    (calculateRiskScore migration metadata).overallScore =
      jsRound (WEIGHTS.tableSize * (scoreTableSize metadata.rowCount).score
        + WEIGHTS.lockRisk * (scoreLockRisk migration).score
        + WEIGHTS.cascadeRisk * (scoreCascadeRisk metadata).score
        + WEIGHTS.dataLoss * (scoreDataLoss migration).score) ∧
    0 ≤ (calculateRiskScore migration metadata).overallScore ∧
    (calculateRiskScore migration metadata).overallScore ≤ 100 := by
  refine ⟨rfl, ?_, ?_⟩
  · show 0 ≤ jsRound (WEIGHTS.tableSize * (scoreTableSize metadata.rowCount).score
      + WEIGHTS.lockRisk * (scoreLockRisk migration).score
      + WEIGHTS.cascadeRisk * (scoreCascadeRisk metadata).score
      + WEIGHTS.dataLoss * (scoreDataLoss migration).score)
    refine jsRound_nonneg ?_
    obtain ⟨h1, _⟩ := scoreTableSize_bounds metadata.rowCount
    obtain ⟨h2, _⟩ := scoreLockRisk_bounds migration
    obtain ⟨h3, _⟩ := cascadeFactorOf_bounds (fkCombined metadata)
    obtain ⟨h4, _⟩ := scoreDataLoss_bounds migration
    simp only [WEIGHTS, scoreCascadeRisk]
    nlinarith
  · show jsRound (WEIGHTS.tableSize * (scoreTableSize metadata.rowCount).score
      + WEIGHTS.lockRisk * (scoreLockRisk migration).score
      + WEIGHTS.cascadeRisk * (scoreCascadeRisk metadata).score
      + WEIGHTS.dataLoss * (scoreDataLoss migration).score) ≤ 100
    refine jsRound_le_100 ?_
    obtain ⟨_, h1⟩ := scoreTableSize_bounds metadata.rowCount
    obtain ⟨_, h2⟩ := scoreLockRisk_bounds migration
    obtain ⟨_, h3⟩ := cascadeFactorOf_bounds (fkCombined metadata)
    obtain ⟨_, h4⟩ := scoreDataLoss_bounds migration
    simp only [WEIGHTS, scoreCascadeRisk]
    nlinarith

set_option maxHeartbeats 1000000 in
/-- C7: the table-size factor score is monotonically non-decreasing in the
row count, and the cascade factor score is monotonically non-decreasing in
the combined foreign-key count. -/
theorem c7_monotone (r1 r2 k1 k2 : ℚ) (hr : r1 ≤ r2) (hk0 : 0 ≤ k1) (hk : k1 ≤ k2) :
    (scoreTableSize r1).score ≤ (scoreTableSize r2).score ∧
    (cascadeFactorOf k1).score ≤ (cascadeFactorOf k2).score := by
  constructor
  · unfold scoreTableSize
    split_ifs <;> (dsimp only; linarith)
  · rcases eq_or_lt_of_le hk0 with h0 | h0
    · rw [← h0]
      have h1 : (cascadeFactorOf 0).score = 0 := by norm_num [cascadeFactorOf]
      rw [h1]
      exact (cascadeFactorOf_bounds k2).1
    · unfold cascadeFactorOf
      split_ifs <;> (dsimp only; linarith)

/-- C7 witness at concrete counts. -/
theorem c7_witness :
    (scoreTableSize 500).score ≤ (scoreTableSize 5000000).score ∧
    (cascadeFactorOf 0).score ≤ (cascadeFactorOf 7).score :=
  c7_monotone 500 5000000 0 7 (by norm_num) (by norm_num) (by norm_num)

/-- C8 counterexample: with an empty metadata collection the metadata record
actually used for captured table `x` carries the name `x`, not `unknown` —
the code overrides `DEFAULT_META`'s name with the captured table name, so
the assessment is not computed against the fixed default record. -/
theorem c8_counterexample :
    (resolveMeta [] "x").name = "x" ∧ DEFAULT_META.name = "unknown" ∧
    resolveMeta [] "x" ≠ DEFAULT_META := by
  refine ⟨rfl, rfl, fun h => ?_⟩
  have h2 := congrArg TableMeta.name h
  exact absurd h2 (by decide)

/-- C8 (amended): when the captured table has no entry in the metadata
collection, the assessment is computed against `DEFAULT_META` with its name
overridden by the captured table name — row count 100,000 and size
10,000,000 bytes; observably, the duration of a row-scaled operation on an
unknown table uses row count 100,000 (duration 100,000 × 0.01 = 1000 ms). -/
theorem c8_default_fallback (tableMeta : List TableMeta) (table : String)
    (h : lookupMeta tableMeta (lowerStr table) = none) :
    resolveMeta tableMeta table =
      { name := table, rowCount := 100000, sizeBytes := 10000000 } ∧
    (lookupMeta tableMeta "x" = none →
      ((analyze "ALTER TABLE x DROP COLUMN y;" tableMeta).operations.map
        (fun i => i.estimatedDurationMs)) = [1000]) := by
  constructor
  · unfold resolveMeta
    rw [h]
    rfl
  · intro h2
    have hres : resolveMeta tableMeta "x" =
        { name := "x", rowCount := 100000, sizeBytes := 10000000 } := by
      unfold resolveMeta
      rw [show lowerStr "x" = "x" from rfl, h2]
      rfl
    have hmap : ((analyze "ALTER TABLE x DROP COLUMN y;" tableMeta).operations.map
        (fun i => i.estimatedDurationMs)) = [(resolveMeta tableMeta "x").rowCount * R] := rfl
    rw [hmap, hres]
    norm_num [R]

/-- C8 witness at a concrete input. -/
theorem c8_witness :
    resolveMeta [] "users" =
      { name := "users", rowCount := 100000, sizeBytes := 10000000 } ∧
    (lookupMeta [] "x" = none →
      ((analyze "ALTER TABLE x DROP COLUMN y;" []).operations.map
        (fun i => i.estimatedDurationMs)) = [1000]) :=
  c8_default_fallback [] "users" rfl

/-- The `Map` lookup relates size-only-different collections pointwise. -/
theorem lookupMeta_sizeOnly {tm1 tm2 : List TableMeta}
    (h : List.Forall₂ MetaSizeOnly tm1 tm2) (key : String) :
    (lookupMeta tm1 key = none ∧ lookupMeta tm2 key = none) ∨
    ∃ a b, lookupMeta tm1 key = some a ∧ lookupMeta tm2 key = some b ∧ MetaSizeOnly a b := by
  induction h with
  | nil => exact Or.inl ⟨rfl, rfl⟩
  | @cons a2 b2 l1 l2 hab htail ih =>
    rcases ih with ⟨hn1, hn2⟩ | ⟨a, b, hs1, hs2, hab2⟩
    · simp only [lookupMeta, hn1, hn2]
      by_cases hk : (lowerStr a2.name == key) = true
      · have hk2 : (lowerStr b2.name == key) = true := by
          rw [← hab.1]
          exact hk
        rw [if_pos hk, if_pos hk2]
        exact Or.inr ⟨a2, b2, rfl, rfl, hab⟩
      · have hk2 : ¬(lowerStr b2.name == key) = true := by
          rw [← hab.1]
          exact hk
        rw [if_neg hk, if_neg hk2]
        exact Or.inl ⟨rfl, rfl⟩
    · simp only [lookupMeta, hs1, hs2]
      exact Or.inr ⟨a, b, rfl, rfl, hab2⟩

/-- Each rule's assessment reads only the row count of the metadata record. -/
theorem rules_assess_rowCount :
    ∀ r ∈ RULES, ∀ (m1 m2 : TableMeta) (s : List Char), m1.rowCount = m2.rowCount →
      r.assess m1 s = r.assess m2 s := by
  intro r hr m1 m2 s hrow
  fin_cases hr <;>
    simp [assessDropTable, assessDropColumn, assessAlterColumnType, assessAddColumn,
      assessCreateIndexConc, assessCreateIndex, assessAddConstraint, assessRename, hrow]

/-- A matched rule is a member of the rule table. -/
theorem matchRules_mem :
    ∀ (rs : List Rule) (stmt : List Char) (r : Rule) (c : Option (List Char)),
      matchRules rs stmt = some (r, c) → r ∈ rs := by
  intro rs
  induction rs with
  | nil => intro stmt r c h; simp [matchRules] at h
  | cons r2 rs ih =>
    intro stmt r c h
    simp only [matchRules] at h
    cases hm : reSearch r2.pattern stmt with
    | some m =>
      rw [hm] at h
      simp only [Option.some.injEq, Prod.mk.injEq] at h
      rw [← h.1]
      exact List.mem_cons_self r2 rs
    | none =>
      rw [hm] at h
      exact List.mem_cons_of_mem r2 (ih stmt r c h)

/-- C9: `sizeBytes` never influences the report — metadata collections that
differ only in their `sizeBytes` values produce identical reports. -/
theorem c9_size_bytes_noninterference (sql : String) (tm1 tm2 : List TableMeta)
    (h : List.Forall₂ MetaSizeOnly tm1 tm2) : analyze sql tm1 = analyze sql tm2 := by
  have hops : operationsOf sql tm1 = operationsOf sql tm2 := by
    unfold operationsOf
    apply List.filterMap_congr
    intro stmt _
    unfold assessStmt
    cases hm : matchRules RULES stmt with
    | none => rfl
    | some rc =>
      obtain ⟨r, c⟩ := rc
      simp only [Option.map_some']
      have hmem := matchRules_mem RULES stmt r c hm
      have hkey := lookupMeta_sizeOnly h
        (lowerStr (if (c.getD []).isEmpty then "unknown" else String.mk (c.getD [])))
      rcases hkey with ⟨hn1, hn2⟩ | ⟨a, b, hs1, hs2, hab⟩
      · unfold resolveMeta
        rw [hn1, hn2]
      · unfold resolveMeta
        rw [hs1, hs2]
        simp only [Option.getD_some]
        rw [rules_assess_rowCount r hmem a b stmt hab.2]
  unfold analyze
  rw [hops]

/-- C9 witness: two singleton collections differing only in `sizeBytes`. -/
theorem c9_witness :
    analyze "DROP TABLE a;" [{ name := "a", rowCount := 5, sizeBytes := 6 }] =
      analyze "DROP TABLE a;" [{ name := "a", rowCount := 5, sizeBytes := 7 }] :=
  c9_size_bytes_noninterference "DROP TABLE a;" _ _
    (List.Forall₂.cons ⟨rfl, rfl⟩ List.Forall₂.nil)

/-! ### C3 and C10: parametric table names -/

theorem head_not_ws_conc (t : List Char) :
    ∀ c, (xCIConc ++ t).head? = some c → isWsChar c = false := by
  intro c hc
  rw [List.head?_append_of_ne_nil xCIConc (by decide)] at hc
  rw [show xCIConc.head? = some 'C' from rfl] at hc
  cases hc
  decide

theorem head_not_ws_plain (t : List Char) :
    ∀ c, (xCIPlain ++ t).head? = some c → isWsChar c = false := by
  intro c hc
  rw [List.head?_append_of_ne_nil xCIPlain (by decide)] at hc
  rw [show xCIPlain.head? = some 'C' from rfl] at hc
  cases hc
  decide

theorem head_not_ws_unique (t : List Char) :
    ∀ c, (xUniqueConc ++ t).head? = some c → isWsChar c = false := by
  intro c hc
  rw [List.head?_append_of_ne_nil xUniqueConc (by decide)] at hc
  rw [show xUniqueConc.head? = some 'C' from rfl] at hc
  cases hc
  decide

theorem matchRules_conc (t : List Char) (hw : allWord t) (ht : t ≠ []) :
    matchRules RULES (xCIConc ++ t) =
      some ({ pattern := P_CREATE_INDEX_CONC, assess := assessCreateIndexConc }, some t) := by
  have h1 : reSearch P_DROP_TABLE (xCIConc ++ t) = none :=
    certNoMatch_sound P_DROP_TABLE xCIConc (by decide) t hw
  have h2 : reSearch P_DROP_COLUMN (xCIConc ++ t) = none :=
    certNoMatch_sound P_DROP_COLUMN xCIConc (by decide) t hw
  have h3 : reSearch P_ALTER_COLUMN_TYPE (xCIConc ++ t) = none :=
    certNoMatch_sound P_ALTER_COLUMN_TYPE xCIConc (by decide) t hw
  have h4 : reSearch P_ADD_COLUMN (xCIConc ++ t) = none :=
    certNoMatch_sound P_ADD_COLUMN xCIConc (by decide) t hw
  have h5 : reSearch P_CREATE_INDEX_CONC (xCIConc ++ t) = some (some t, []) :=
    reSearch_capTail P_CREATE_INDEX_CONC xCIConc (by decide) t hw ht
  simp [RULES, matchRules, h1, h2, h3, h4, h5]

theorem matchRules_plain (t : List Char) (hw : allWord t) (ht : t ≠ []) :
    matchRules RULES (xCIPlain ++ t) =
      some ({ pattern := P_CREATE_INDEX, assess := assessCreateIndex }, some t) := by
  have h1 : reSearch P_DROP_TABLE (xCIPlain ++ t) = none :=
    certNoMatch_sound P_DROP_TABLE xCIPlain (by decide) t hw
  have h2 : reSearch P_DROP_COLUMN (xCIPlain ++ t) = none :=
    certNoMatch_sound P_DROP_COLUMN xCIPlain (by decide) t hw
  have h3 : reSearch P_ALTER_COLUMN_TYPE (xCIPlain ++ t) = none :=
    certNoMatch_sound P_ALTER_COLUMN_TYPE xCIPlain (by decide) t hw
  have h4 : reSearch P_ADD_COLUMN (xCIPlain ++ t) = none :=
    certNoMatch_sound P_ADD_COLUMN xCIPlain (by decide) t hw
  have h5 : reSearch P_CREATE_INDEX_CONC (xCIPlain ++ t) = none :=
    certNoMatch_sound P_CREATE_INDEX_CONC xCIPlain (by decide) t hw
  have h6 : reSearch P_CREATE_INDEX (xCIPlain ++ t) = some (some t, []) :=
    reSearch_capTail P_CREATE_INDEX xCIPlain (by decide) t hw ht
  simp [RULES, matchRules, h1, h2, h3, h4, h5, h6]

theorem matchRules_unique (t : List Char) (hw : allWord t) :
    matchRules RULES (xUniqueConc ++ t) = none := by
  have h1 : reSearch P_DROP_TABLE (xUniqueConc ++ t) = none :=
    certNoMatch_sound P_DROP_TABLE xUniqueConc (by decide) t hw
  have h2 : reSearch P_DROP_COLUMN (xUniqueConc ++ t) = none :=
    certNoMatch_sound P_DROP_COLUMN xUniqueConc (by decide) t hw
  have h3 : reSearch P_ALTER_COLUMN_TYPE (xUniqueConc ++ t) = none :=
    certNoMatch_sound P_ALTER_COLUMN_TYPE xUniqueConc (by decide) t hw
  have h4 : reSearch P_ADD_COLUMN (xUniqueConc ++ t) = none :=
    certNoMatch_sound P_ADD_COLUMN xUniqueConc (by decide) t hw
  have h5 : reSearch P_CREATE_INDEX_CONC (xUniqueConc ++ t) = none :=
    certNoMatch_sound P_CREATE_INDEX_CONC xUniqueConc (by decide) t hw
  have h6 : reSearch P_CREATE_INDEX (xUniqueConc ++ t) = none :=
    certNoMatch_sound P_CREATE_INDEX xUniqueConc (by decide) t hw
  have h7 : reSearch P_ADD_CONSTRAINT (xUniqueConc ++ t) = none :=
    certNoMatch_sound P_ADD_CONSTRAINT xUniqueConc (by decide) t hw
  have h8 : reSearch P_RENAME (xUniqueConc ++ t) = none :=
    certNoMatch_sound P_RENAME xUniqueConc (by decide) t hw
  simp [RULES, matchRules, h1, h2, h3, h4, h5, h6, h7, h8]

theorem isEmpty_false_of_ne_nil {t : List Char} (ht : t ≠ []) : t.isEmpty = false := by
  cases t with
  | nil => exact absurd rfl ht
  | cons c t2 => rfl

theorem operationsOf_conc (tableMeta : List TableMeta) (t : List Char)
    (hw : allWord t) (ht : t ≠ []) :
    operationsOf (sqlCreateIndexConc t) tableMeta =
      [{ toAssessment := assessCreateIndexConc (resolveMeta tableMeta (String.mk t))
           (xCIConc ++ t),
         table := String.mk t }] := by
  unfold operationsOf sqlCreateIndexConc
  rw [statementsOf_single xCIConc t (by decide) hw ht (head_not_ws_conc t)]
  simp only [List.filterMap_cons, List.filterMap_nil, assessStmt,
    matchRules_conc t hw ht, Option.map_some']
  simp [isEmpty_false_of_ne_nil ht]

theorem operationsOf_plain (tableMeta : List TableMeta) (t : List Char)
    (hw : allWord t) (ht : t ≠ []) :
    operationsOf (sqlCreateIndex t) tableMeta =
      [{ toAssessment := assessCreateIndex (resolveMeta tableMeta (String.mk t))
           (xCIPlain ++ t),
         table := String.mk t }] := by
  unfold operationsOf sqlCreateIndex
  rw [statementsOf_single xCIPlain t (by decide) hw ht (head_not_ws_plain t)]
  simp only [List.filterMap_cons, List.filterMap_nil, assessStmt,
    matchRules_plain t hw ht, Option.map_some']
  simp [isEmpty_false_of_ne_nil ht]

/-- C3: for every table name (a non-empty word-character string) and every
metadata collection, `CREATE INDEX CONCURRENTLY idx_email ON <t>` yields one
RiskItem with risk level low and lock type `SHARE UPDATE EXCLUSIVE`, while
the otherwise-identical non-concurrent statement yields one RiskItem with
the strictly higher risk level high and the different lock type `SHARE`,
both assessed against the same resolved table metadata.  This is decided by
the rule table: the concurrent rule precedes the general non-concurrent rule
and `matchRules` stops at the first match. -/
theorem c3_concurrent_lower_risk (t : List Char) (hw : allWord t) (ht : t ≠ [])
    (tableMeta : List TableMeta) :
    (analyze (sqlCreateIndexConc t) tableMeta).operations =
      [{ operation := "CREATE INDEX CONCURRENTLY", riskLevel := .low,
         lockType := "SHARE UPDATE EXCLUSIVE",
         estimatedDurationMs := (resolveMeta tableMeta (String.mk t)).rowCount * R * 3,
         dataLoss := false,
         suggestion := "Good practice. Monitor for long-running transactions that may block.",
         table := String.mk t }] ∧
    (analyze (sqlCreateIndex t) tableMeta).operations =
      [{ operation := "CREATE INDEX", riskLevel := .high, lockType := "SHARE",
         estimatedDurationMs := (resolveMeta tableMeta (String.mk t)).rowCount * R * 3,
         dataLoss := false,
         suggestion := "Use CREATE INDEX CONCURRENTLY to avoid blocking writes.",
         table := String.mk t }] ∧
    rank RiskLevel.low < rank RiskLevel.high ∧
    ("SHARE UPDATE EXCLUSIVE" : String) ≠ "SHARE" := by
  refine ⟨?_, ?_, by decide, by decide⟩
  · show operationsOf (sqlCreateIndexConc t) tableMeta = _
    rw [operationsOf_conc tableMeta t hw ht]
    rfl
  · show operationsOf (sqlCreateIndex t) tableMeta = _
    rw [operationsOf_plain tableMeta t hw ht]
    rfl

/-- C3 witness at the table name `users` and the empty metadata collection. -/
theorem c3_witness :
    (analyze (sqlCreateIndexConc "users".toList) []).operations =
      [{ operation := "CREATE INDEX CONCURRENTLY", riskLevel := .low,
         lockType := "SHARE UPDATE EXCLUSIVE",
         estimatedDurationMs := (resolveMeta [] (String.mk "users".toList)).rowCount * R * 3,
         dataLoss := false,
         suggestion := "Good practice. Monitor for long-running transactions that may block.",
         table := String.mk "users".toList }] ∧
    (analyze (sqlCreateIndex "users".toList) []).operations =
      [{ operation := "CREATE INDEX", riskLevel := .high, lockType := "SHARE",
         estimatedDurationMs := (resolveMeta [] (String.mk "users".toList)).rowCount * R * 3,
         dataLoss := false,
         suggestion := "Use CREATE INDEX CONCURRENTLY to avoid blocking writes.",
         table := String.mk "users".toList }] ∧
    rank RiskLevel.low < rank RiskLevel.high ∧
    ("SHARE UPDATE EXCLUSIVE" : String) ≠ "SHARE" :=
  c3_concurrent_lower_risk "users".toList (by unfold allWord; decide) (by decide) []

/-- C10: for every table name and metadata collection, a
`CREATE UNIQUE INDEX CONCURRENTLY` statement matches no rule — the
concurrent-index pattern does not allow UNIQUE and the non-concurrent
pattern's negative lookahead rejects CONCURRENTLY — so the report has no
RiskItems (and is the empty report). -/
theorem c10_unique_concurrent_unmatched (t : List Char) (hw : allWord t) (ht : t ≠ [])
    (tableMeta : List TableMeta) :
    analyze (sqlCreateUniqueIndexConc t) tableMeta =
      { operations := [], overallRisk := .low, totalEstimatedDurationMs := 0, score := 0 } := by
  have hops : operationsOf (sqlCreateUniqueIndexConc t) tableMeta = [] := by
    unfold operationsOf sqlCreateUniqueIndexConc
    rw [statementsOf_single xUniqueConc t (by decide) hw ht (head_not_ws_unique t)]
    simp [List.filterMap_cons, assessStmt, matchRules_unique t hw]
  unfold analyze
  rw [hops]
  have h2 : totalDurationOf [] = 0 := by norm_num [totalDurationOf, jsRound_eq]
  rw [h2]
  rfl

/-- C10 witness at the table name `users` and the empty metadata collection. -/
theorem c10_witness :
    analyze (sqlCreateUniqueIndexConc "users".toList) [] =
      { operations := [], overallRisk := .low, totalEstimatedDurationMs := 0, score := 0 } :=
  c10_unique_concurrent_unmatched "users".toList (by unfold allWord; decide) (by decide) []
